import Mathlib

/-!
Shallow embedding of the `artnum/hashmap` container (`src/hashmap.c`,
`src/include/hashmap.h`) and verification of the specification claims.

Modelling conventions:
* `void *` data pointers are modelled as `Nat`, with `0` standing for `NULL`;
  a slot is occupied exactly when its `data` field is nonzero.
* machine integers (`uint32_t`, `size_t`) are modelled as `Nat`; the source
  only combines them with `%`, so no overflow arithmetic arises.  The 64-bit
  hash value is truncated with `% 2 ^ 64` and split with `% 2 ^ 32` / `/ 2 ^ 32`
  exactly as `_compute_key` does with masking and shifting.
* `malloc`/`realloc`/`calloc` success is an environment choice, modelled by an
  explicit `AllocOracle` passed to the operations that allocate.
* the destroy callback (`free_item`) is modelled by an effect log: mutating
  operations return the list of data references passed to the callback.
* C undefined behaviour that the source can actually reach (the `%` by zero in
  `hashmap_delete` when the bucket has capacity 0) is modelled by returning
  `none` from the operation.
* loops are translated into structurally recursive functions on an explicit
  fuel argument equal to the loop bound, so that every definition evaluates by
  `decide`/`rfl`.
-/

/-- Two-part key `HashMapBucketKey`: low/high 32-bit halves of the 64-bit hash. -/
structure BucketKey where
  pkey : Nat
  skey : Nat
deriving DecidableEq, Repr

/-- Slot `HashMapBucketItem`: a two-part key and a data pointer (0 = NULL). -/
structure BucketItem where
  key : BucketKey
  data : Nat
deriving DecidableEq, Repr

/-- The all-zero slot: canonical unused state (`data = NULL`, `key = {0,0}`). -/
def zeroItem : BucketItem := ⟨⟨0, 0⟩, 0⟩

/-- Bucket `HashMapBucket`: slot array plus stored occupied count.  The C
`capacity` field is the length of `items`; the two are kept in lock step by
every source function, so the model identifies them. -/
structure Bucket where
  items : List BucketItem
  count : Nat
deriving DecidableEq, Repr

/-- Capacity of a bucket, i.e. the length of its slot array. -/
def Bucket.capacity (b : Bucket) : Nat := b.items.length

/-- The empty bucket produced by `calloc` in `hashmap_create`. -/
def emptyBucket : Bucket := ⟨[], 0⟩

/-- The container `HashMap`: primary table, callbacks, scratch-buffer capacity.
The scratch buffer `_tmp` itself has no observable contents (it is always
overwritten before being read), so only `_tmp_capacity` is kept. -/
structure HashMap where
  table : List Bucket
  hash_function : String → Nat
  hasFree : Bool
  tmpCapacity : Nat

/-- Outcome of the allocations a single operation may attempt: `tmpOk` for the
scratch-buffer `realloc`, `itemsOk` for the slot-array `realloc`/`calloc`. -/
structure AllocOracle where
  tmpOk : Bool
  itemsOk : Bool
deriving DecidableEq, Repr

/-- Oracle on which every allocation succeeds. -/
def allocOk : AllocOracle := ⟨true, true⟩

/-- Replace bucket `n` of the table (a store through `map->table[n]`). -/
def setBucket (m : HashMap) (n : Nat) (b : Bucket) : HashMap :=
  { m with table := m.table.set n b }

/-- Primary bucket selection: `key.pkey % map->capacity`. -/
def bucketIndex (m : HashMap) (key : BucketKey) : Nat :=
  key.pkey % m.table.length

/-- Bucket `n` of the table (a read of `map->table[n]`). -/
def bucketAt (m : HashMap) (n : Nat) : Bucket :=
  m.table.getD n emptyBucket

/-- Loop body of `_get_item`: probe slots `(idx + i) % capacity` for
`i = 0, 1, ...`, returning the first slot that holds the key, or (when
`empty_ok`) the first empty slot; the fuel is the remaining iteration budget
(`capacity - i` at entry). -/
def probeFindAux (arr : List BucketItem) (key : BucketKey) (empty_ok : Bool)
    (idx : Nat) : Nat → Nat → Option Nat
  | _, 0 => none
  | i, fuel + 1 =>
    let pos := (idx + i) % arr.length
    let it := arr.getD pos zeroItem
    if it.data ≠ 0 ∧ it.key = key then some pos
    else if empty_ok = true ∧ it.data = 0 then some pos
    else probeFindAux arr key empty_ok idx (i + 1) fuel

/-- Scan of `_get_item` over all `capacity` slots starting at `idx`. -/
def probeFind (arr : List BucketItem) (key : BucketKey) (empty_ok : Bool)
    (idx : Nat) : Option Nat :=
  probeFindAux arr key empty_ok idx 0 arr.length

/-- Position returned by `_get_item`: `none` models the NULL item pointer.
The bucket itself is `bucketAt m (bucketIndex m key)`, matching the `*n`
out-parameter. -/
def getItemPos (m : HashMap) (key : BucketKey) (empty_ok : Bool) : Option Nat :=
  let node := bucketAt m (bucketIndex m key)
  if node.items.length = 0 then none
  else probeFind node.items key empty_ok (key.skey % node.items.length)

/-- Inner loop of the regrow in `_grow_node_if_needed`: first slot with
`data == NULL` starting at `idx`, wrapping modulo the array length. -/
def firstEmptyAux (arr : List BucketItem) (idx : Nat) : Nat → Nat → Option Nat
  | _, 0 => none
  | j, fuel + 1 =>
    let pos := (idx + j) % arr.length
    if (arr.getD pos zeroItem).data = 0 then some pos
    else firstEmptyAux arr idx (j + 1) fuel

/-- Scan for the first empty slot over all `capacity` offsets. -/
def firstEmpty (arr : List BucketItem) (idx : Nat) : Option Nat :=
  firstEmptyAux arr idx 0 arr.length

/-- One iteration of the outer regrow loop: re-place one saved slot (occupied
or not — the source copies every `_tmp[i]`) into the first empty slot of its
probe sequence; if no empty slot exists the slot is dropped, mirroring the
loop running to completion without the `break`. -/
def relocOne (arr : List BucketItem) (it : BucketItem) : List BucketItem :=
  match firstEmpty arr (it.key.skey % arr.length) with
  | some p => arr.set p it
  | none => arr

/-- The regrow loop: every slot of the saved old array (`_tmp`), in index
order, re-placed into the fresh zeroed array. -/
def reloc (old fresh : List BucketItem) : List BucketItem :=
  old.foldl relocOne fresh

/-- Model of `_grow_node_if_needed`.  `realloc` failure leaves the old
allocation intact, so the failing paths return the map unchanged except for
a possibly already-grown scratch capacity; the `calloc` failure path stores
`NULL` into `node->items`, which was already `NULL` for a capacity-0 bucket,
hence no visible change. -/
def growNodeIfNeeded (o : AllocOracle) (m : HashMap) (key : BucketKey) :
    Bool × HashMap :=
  let n := bucketIndex m key
  let node := bucketAt m n
  if node.count + 1 < node.items.length then (true, m)
  else
    let new_capacity := if node.items.length = 0 then 8 else node.items.length * 2
    if 0 < node.items.length then
      let cont : HashMap → Bool × HashMap := fun m1 =>
        if o.itemsOk then
          (true, setBucket m1 n
            ⟨reloc node.items (List.replicate new_capacity zeroItem), node.count⟩)
        else (false, m1)
      if m.tmpCapacity < node.items.length then
        if o.tmpOk then cont { m with tmpCapacity := node.items.length }
        else (false, m)
      else cont m
    else
      if o.itemsOk then
        (true, setBucket m n ⟨List.replicate new_capacity zeroItem, node.count⟩)
      else (false, m)

/-- Model of `hashmap_set` at the level of computed keys.  Returns the
success flag, the new map, and the list of data references passed to the
destroy callback. -/
def hashmapSetK (o : AllocOracle) (m : HashMap) (key : BucketKey) (data : Nat) :
    Bool × HashMap × List Nat :=
  match growNodeIfNeeded o m key with
  | (false, m1) => (false, m1, [])
  | (true, m1) =>
    let n := bucketIndex m1 key
    let node := bucketAt m1 n
    match getItemPos m1 key true with
    | none => (false, m1, [])
    | some pos =>
      let it := node.items.getD pos zeroItem
      if it.data = 0 then
        (true, setBucket m1 n ⟨node.items.set pos ⟨key, data⟩, node.count + 1⟩, [])
      else
        (true, setBucket m1 n ⟨node.items.set pos ⟨key, data⟩, node.count⟩,
          if m1.hasFree then [it.data] else [])

/-- Model of `hashmap_get` at the level of computed keys; `0` is the NULL
not-found result. -/
def hashmapGetK (m : HashMap) (key : BucketKey) : Nat :=
  match getItemPos m key false with
  | none => 0
  | some pos => ((bucketAt m (bucketIndex m key)).items.getD pos zeroItem).data

/-- Loop of `hashmap_delete`, translated exactly: the loop header increments
`i` and the body ends with a second `i++`, so iterations examine offsets
`0, 2, 4, ...`; the scan returns not-found at the first examined empty slot. -/
def deleteScanAux (arr : List BucketItem) (key : BucketKey) (idx : Nat) :
    Nat → Nat → Option Nat
  | _, 0 => none
  | i, fuel + 1 =>
    if i < arr.length then
      let pos := (idx + i) % arr.length
      let it := arr.getD pos zeroItem
      if it.data = 0 then none
      else if it.key = key then some pos
      else deleteScanAux arr key idx (i + 2) fuel
    else none

/-- Full deletion scan (`for (i = 0; i < node.capacity; i++) { ...; i++; }`). -/
def deleteScan (arr : List BucketItem) (key : BucketKey) (idx : Nat) : Option Nat :=
  deleteScanAux arr key idx 0 arr.length

/-- Model of `hashmap_delete` at the level of computed keys.  `wantOut` is
whether the `void **data` out pointer is non-NULL; the returned `Option Nat`
is `some v` exactly when the source writes `v` through it.  The source copies
the bucket struct *by value* (`HashMapBucket node = map->table[...]`), so the
slot stores through the shared `items` pointer persist while `node.count--`
only touches the local copy: the stored count is left unchanged.  When the
bucket has capacity 0 the source evaluates `ukey.skey % node.capacity`, a
division by zero: undefined behaviour, modelled as `none`. -/
def hashmapDeleteK (m : HashMap) (key : BucketKey) (wantOut : Bool) :
    Option (Bool × HashMap × Option Nat) :=
  let n := bucketIndex m key
  let node := bucketAt m n
  if node.items.length = 0 then none
  else
    let idx := key.skey % node.items.length
    match deleteScan node.items key idx with
    | none => some (false, m, none)
    | some pos =>
      let out := if wantOut then some ((node.items.getD pos zeroItem).data) else none
      some (true, setBucket m n { node with items := node.items.set pos zeroItem }, out)

/-- Model of `_compute_key`: hash the string, truncate to 64 bits, split into
low and high 32-bit halves. -/
def computeKey (m : HashMap) (key : String) : BucketKey :=
  let u := m.hash_function key % 2 ^ 64
  ⟨u % 2 ^ 32, u / 2 ^ 32⟩

/-- Model of `hashmap_create` (the asserted preconditions `capacity > 0` and a
real hash function appear as hypotheses of the theorems that need them). -/
def hashmap_create (capacity : Nat) (hash_function : String → Nat)
    (hasFree : Bool) : HashMap :=
  { table := List.replicate capacity emptyBucket
    hash_function := hash_function
    hasFree := hasFree
    tmpCapacity := 0 }

/-- Model of `hashmap_set` on string keys. -/
def hashmap_set (o : AllocOracle) (m : HashMap) (key : String) (data : Nat) :
    Bool × HashMap × List Nat :=
  hashmapSetK o m (computeKey m key) data

/-- Model of `hashmap_get` on string keys. -/
def hashmap_get (m : HashMap) (key : String) : Nat :=
  hashmapGetK m (computeKey m key)

/-- Model of `hashmap_delete` on string keys. -/
def hashmap_delete (m : HashMap) (key : String) (wantOut : Bool) :
    Option (Bool × HashMap × Option Nat) :=
  hashmapDeleteK m (computeKey m key) wantOut

/-- Model of `hashmap_iterate`: the list of `(key, data)` visits, in storage
order, over every occupied slot of every allocated bucket.  It reads the map
but never mutates it. -/
def hashmap_iterate (m : HashMap) : List (BucketKey × Nat) :=
  m.table.foldl
    (fun acc b =>
      if b.items.length = 0 then acc
      else acc ++ (b.items.filter (fun it => it.data != 0)).map
        (fun it => (it.key, it.data)))
    []

/-- Container states reachable from `hashmap_create` by the public mutating
operations.  `hashmap_get` and `hashmap_iterate` do not change the state in
the source (and are pure functions in the model), so they contribute no step;
`hashmap_set` takes a step for every allocation outcome; `hashmap_delete`
takes a step whenever it executes without undefined behaviour.  Every
string-key operation factors through the computed-key operation, so closing
under arbitrary `BucketKey`s covers every hash function and string. -/
inductive Reachable : HashMap → Prop where
  | create : ∀ cap hash hasFree, 0 < cap → Reachable (hashmap_create cap hash hasFree)
  | set : ∀ m o k d, Reachable m → Reachable (hashmapSetK o m k d).2.1
  | delete : ∀ m k w r, Reachable m → hashmapDeleteK m k w = some r →
      Reachable r.2.1

/-- Slot condition tested by the `_get_item` loop at a position: an occupied
slot holding the key, or (when `empty_ok`) an empty slot. -/
def goodSlot (arr : List BucketItem) (key : BucketKey) (empty_ok : Bool)
    (pos : Nat) : Prop :=
  ((arr.getD pos zeroItem).data ≠ 0 ∧ (arr.getD pos zeroItem).key = key) ∨
  (empty_ok = true ∧ (arr.getD pos zeroItem).data = 0)

instance (arr : List BucketItem) (key : BucketKey) (empty_ok : Bool) (pos : Nat) :
    Decidable (goodSlot arr key empty_ok pos) := by
  unfold goodSlot; infer_instance

/-- An occupied slot holding the key, at a position. -/
def matchesAt (arr : List BucketItem) (key : BucketKey) (pos : Nat) : Prop :=
  (arr.getD pos zeroItem).data ≠ 0 ∧ (arr.getD pos zeroItem).key = key

instance (arr : List BucketItem) (key : BucketKey) (pos : Nat) :
    Decidable (matchesAt arr key pos) := by
  unfold matchesAt; infer_instance

/-- The occupied slots of a slot array, in storage order. -/
def occ (l : List BucketItem) : List BucketItem :=
  l.filter (fun it => it.data != 0)

/-- The occupied slots of a slot array, as a multiset (storage order forgotten). -/
def occM (l : List BucketItem) : Multiset BucketItem := (occ l : Multiset BucketItem)

/-- Number of occupied slots of the key's bucket that hold the key. -/
def countKeyOcc (m : HashMap) (k : BucketKey) : Nat :=
  ((occ (bucketAt m (bucketIndex m k)).items).filter (fun it => decide (it.key = k))).length

/-- Well-formedness of a bucket: a capacity-0 bucket has stored count 0; an
allocated bucket keeps its stored count strictly below its capacity and its
capacity of the form `8 * 2 ^ j`. -/
def BucketWF (b : Bucket) : Prop :=
  (b.items.length = 0 → b.count = 0) ∧
  (0 < b.items.length → b.count < b.items.length ∧ ∃ j, b.items.length = 8 * 2 ^ j)

/-- Well-formedness of a container: every bucket is well-formed. -/
def MapWF (m : HashMap) : Prop := ∀ b ∈ m.table, BucketWF b

/-- No empty slot precedes an occupied slot inside that slot's own probe
sequence: for every occupied position `p` at probe offset `t` from its key's
home index, all offsets before `t` are occupied.  This is the shape the regrow
loop produces. -/
def NoHoleBefore (l : List BucketItem) : Prop :=
  ∀ p, p < l.length → (l.getD p zeroItem).data ≠ 0 →
    ∀ t, t < l.length →
      ((l.getD p zeroItem).key.skey % l.length + t) % l.length = p →
      ∀ j, j < t →
        (l.getD (((l.getD p zeroItem).key.skey % l.length + j) % l.length) zeroItem).data ≠ 0

/-- Bucket capacity after `j` insertions of fresh keys into a single bucket,
following the growth schedule of `_grow_node_if_needed` with base size 8. -/
def c8cap (j : Nat) : Nat := if j = 0 then 0 else if j ≤ 7 then 8 else 16

/-- Driver for the spec scenario of inserting a list of key/data pairs in
order, stopping at the first failure.  Mirrors a caller looping over
`hashmap_set`. -/
def setList (o : AllocOracle) (m : HashMap) : List (BucketKey × Nat) → Bool × HashMap
  | [] => (true, m)
  | p :: rest =>
    let r := hashmapSetK o m p.1 p.2
    if r.1 = true then setList o r.2.1 rest else (false, r.2.1)

/-- Hash function that sends every string to 0 (a legal, maximally colliding
caller-supplied hash). -/
def hzero : String → Nat := fun _ => 0

/-- Container state for the C2 scenario: one entry under key "a". -/
def c2map : HashMap :=
  (hashmap_set allocOk (hashmap_create 1 hzero false) "a" 1).2.1

/-- Hash function for the C3 scenario: "b" collides with "a" on the primary
half and probes to offset 1 of the same bucket. -/
def c3hash : String → Nat := fun s => if s = "b" then 8 * 2 ^ 32 else 0

/-- Container state for the C3 scenario: "a" at its home slot 0, "b" (same
home index 0) displaced to slot 1. -/
def c3map : HashMap :=
  (hashmap_set allocOk
    ((hashmap_set allocOk (hashmap_create 1 c3hash false) "a" 1).2.1) "b" 2).2.1

/-- Hash function for the C7 counterexample: every key lands in primary
bucket 0; the secondary halves are engineered so that "k" probes from index 7
of an 8-slot bucket. -/
def c7hash : String → Nat := fun s =>
  if s = "v" then 15 * 2 ^ 32
  else if s = "k" then 7 * 2 ^ 32
  else if s = "f1" then 1 * 2 ^ 32
  else if s = "f2" then 2 * 2 ^ 32
  else if s = "f3" then 3 * 2 ^ 32
  else if s = "f4" then 4 * 2 ^ 32
  else 0

/-- C7 counterexample, step 1: fill bucket 0 with "v" (home 7), "k" (home 7,
displaced to slot 0, value 10) and four fillers at slots 1-4. -/
def c7m0 : HashMap :=
  (hashmap_set allocOk
    ((hashmap_set allocOk
      ((hashmap_set allocOk
        ((hashmap_set allocOk
          ((hashmap_set allocOk
            ((hashmap_set allocOk (hashmap_create 1 c7hash true) "v" 20).2.1)
            "k" 10).2.1)
          "f1" 31).2.1)
        "f2" 32).2.1)
      "f3" 33).2.1)
    "f4" 34).2.1

/-- C7 counterexample, step 2: delete "v", leaving an empty slot at index 7 —
the probe start of "k" — while the old "k" entry (value 10) stays at slot 0. -/
def c7m1 : HashMap :=
  ((hashmap_delete c7m0 "v" false).getD (false, c7m0, none)).2.1

/-- C7 counterexample, step 3: the first set of the claim, `set("k", 11)`.
It lands in the empty slot 7, so the bucket now holds the key "k" twice
(value 10 at slot 0, value 11 at slot 7), and the stored count reaches 7. -/
def c7m2 : HashMap :=
  (hashmap_set allocOk c7m1 "k" 11).2.1

/-- Witness container for C9: an empty slot at the probe start, the looked-up
key one slot later. -/
def c9map : HashMap :=
  { table := [⟨[zeroItem, ⟨⟨0, 0⟩, 7⟩, zeroItem, zeroItem, zeroItem, zeroItem,
               zeroItem, zeroItem], 1⟩]
    hash_function := hzero
    hasFree := false
    tmpCapacity := 0 }

/-- Key/data pairs for the C8 witness: nine distinct two-part keys, all in
primary bucket 0. -/
def c8pairs : List (BucketKey × Nat) :=
  (List.range 9).map (fun i => (⟨0, i⟩, i + 100))

/-- Hash function for the C10 witness: "b" probes from slot 1, away from the
single stored entry. -/
def c10hash : String → Nat := fun s => if s = "b" then 2 ^ 32 else 0

/-- Container with one entry under "a", used by the C10 witness. -/
def c10map : HashMap :=
  (hashmap_set allocOk (hashmap_create 1 c10hash false) "a" 5).2.1

/-! ### List helper lemmas -/

theorem getD_set_self {α : Type} {l : List α} {p : Nat} (hp : p < l.length)
    (x d : α) : (l.set p x).getD p d = x := by
  induction l generalizing p with
  | nil => simp at hp
  | cons a tl ih =>
    cases p with
    | zero => rfl
    | succ q => exact ih (by simpa using hp) 

theorem getD_set_ne {α : Type} (l : List α) {p q : Nat} (hne : p ≠ q)
    (x d : α) : (l.set p x).getD q d = l.getD q d := by
  induction l generalizing p q with
  | nil => simp [List.set]
  | cons a tl ih =>
    cases p with
    | zero =>
      cases q with
      | zero => exact absurd rfl hne
      | succ q' => rfl
    | succ p' =>
      cases q with
      | zero => rfl
      | succ q' => exact ih (fun h => hne (by omega)) 

theorem set_getD_self {α : Type} {l : List α} {p : Nat} (hp : p < l.length)
    (d : α) : l.set p (l.getD p d) = l := by
  induction l generalizing p with
  | nil => rfl
  | cons a tl ih =>
    cases p with
    | zero => rfl
    | succ q => simpa using ih (by simpa using hp)

theorem getD_replicate {α : Type} {n p : Nat} (hp : p < n) (a d : α) :
    (List.replicate n a).getD p d = a := by
  induction n generalizing p with
  | zero => omega
  | succ n ih =>
    cases p with
    | zero => rfl
    | succ q => exact ih (by omega)

theorem getD_mem {α : Type} {l : List α} {p : Nat} (hp : p < l.length) (d : α) :
    l.getD p d ∈ l := by
  rw [List.getD_eq_getElem l d hp]
  exact List.getElem_mem hp

/-! ### Probe-sequence arithmetic -/

theorem probe_inj {cap idx i j : Nat} (hi : i < cap) (hj : j < cap)
    (h : (idx + i) % cap = (idx + j) % cap) : i = j := by
  rcases Nat.le_total i j with hle | hle
  · have hd : cap ∣ (idx + j) - (idx + i) :=
      (Nat.modEq_iff_dvd' (by omega)).mp h
    have h2 : (idx + j) - (idx + i) = j - i := by omega
    rw [h2] at hd
    have h3 : j - i = 0 := Nat.eq_zero_of_dvd_of_lt hd (by omega)
    omega
  · have hd : cap ∣ (idx + i) - (idx + j) :=
      (Nat.modEq_iff_dvd' (by omega)).mp h.symm
    have h2 : (idx + i) - (idx + j) = i - j := by omega
    rw [h2] at hd
    have h3 : i - j = 0 := Nat.eq_zero_of_dvd_of_lt hd (by omega)
    omega

theorem exists_offset {cap idx p : Nat} (hp : p < cap) :
    ∃ t < cap, (idx + t) % cap = p := by
  have hcap : 0 < cap := by omega
  have hr : idx % cap < cap := Nat.mod_lt idx hcap
  rcases Nat.lt_or_ge p (idx % cap) with hlt | hge
  · refine ⟨cap + p - idx % cap, by omega, ?_⟩
    rw [Nat.add_mod, Nat.mod_eq_of_lt (show cap + p - idx % cap < cap by omega)]
    have h2 : idx % cap + (cap + p - idx % cap) = cap + p := by omega
    rw [h2, Nat.add_mod_left, Nat.mod_eq_of_lt hp]
  · refine ⟨p - idx % cap, by omega, ?_⟩
    rw [Nat.add_mod, Nat.mod_eq_of_lt (show p - idx % cap < cap by omega),
        Nat.mod_eq_of_lt (show idx % cap + (p - idx % cap) < cap by omega)]
    omega

/-! ### Characterization of the `_get_item` probe loop -/

theorem probeFindAux_sound {arr : List BucketItem} {key : BucketKey} {eok : Bool}
    {idx : Nat} : ∀ {fuel i p : Nat},
    probeFindAux arr key eok idx i fuel = some p →
    ∃ t, t < fuel ∧ p = (idx + (i + t)) % arr.length ∧
      goodSlot arr key eok p ∧
      ∀ j, j < t → ¬ goodSlot arr key eok ((idx + (i + j)) % arr.length) := by
  intro fuel
  induction fuel with
  | zero => intro i p h; simp [probeFindAux] at h
  | succ fuel ih =>
    intro i p h
    simp only [probeFindAux] at h
    split at h
    · rename_i hcond
      refine ⟨0, by omega, by simpa using (Option.some_inj.mp h).symm, ?_, by omega⟩
      have hp : p = (idx + i) % arr.length := (Option.some_inj.mp h).symm
      rw [hp]; exact Or.inl hcond
    · split at h
      · rename_i hcond1 hcond2
        refine ⟨0, by omega, by simpa using (Option.some_inj.mp h).symm, ?_, by omega⟩
        have hp : p = (idx + i) % arr.length := (Option.some_inj.mp h).symm
        rw [hp]; exact Or.inr hcond2
      · rename_i hcond1 hcond2
        obtain ⟨t, ht, hp, hg, hmin⟩ := ih h
        refine ⟨t + 1, by omega, ?_, hg, ?_⟩
        · rw [hp]; congr 2; omega
        · intro j hj
          cases j with
          | zero =>
            intro hgood
            simp only [Nat.add_zero] at hgood
            rcases hgood with h1 | h2
            · exact hcond1 h1
            · exact hcond2 h2
          | succ j' =>
            have := hmin j' (by omega)
            intro hgood
            apply this
            have he : idx + (i + 1 + j') = idx + (i + (j' + 1)) := by omega
            rw [he]
            exact hgood

theorem probeFindAux_complete {arr : List BucketItem} {key : BucketKey}
    {eok : Bool} {idx : Nat} : ∀ {fuel i t : Nat},
    t < fuel →
    goodSlot arr key eok ((idx + (i + t)) % arr.length) →
    (∀ j, j < t → ¬ goodSlot arr key eok ((idx + (i + j)) % arr.length)) →
    probeFindAux arr key eok idx i fuel = some ((idx + (i + t)) % arr.length) := by
  intro fuel
  induction fuel with
  | zero => omega
  | succ fuel ih =>
    intro i t ht hg hmin
    simp only [probeFindAux]
    cases t with
    | zero =>
      simp only [Nat.add_zero] at hg
      rcases hg with h1 | h2
      · rw [if_pos h1]; simp
      · by_cases h1 : (arr.getD ((idx + i) % arr.length) zeroItem).data ≠ 0 ∧
            (arr.getD ((idx + i) % arr.length) zeroItem).key = key
        · rw [if_pos h1]; simp
        · rw [if_neg h1, if_pos h2]; simp
    | succ t' =>
      have h0 : ¬ goodSlot arr key eok ((idx + (i + 0)) % arr.length) :=
        hmin 0 (by omega)
      simp only [Nat.add_zero] at h0
      unfold goodSlot at h0
      have hn1 : ¬ ((arr.getD ((idx + i) % arr.length) zeroItem).data ≠ 0 ∧
          (arr.getD ((idx + i) % arr.length) zeroItem).key = key) :=
        fun hc => h0 (Or.inl hc)
      have hn2 : ¬ (eok = true ∧
          (arr.getD ((idx + i) % arr.length) zeroItem).data = 0) :=
        fun hc => h0 (Or.inr hc)
      rw [if_neg hn1, if_neg hn2]
      have he : idx + (i + (t' + 1)) = idx + (i + 1 + t') := by omega
      rw [he] at hg ⊢
      refine ih (by omega) hg ?_
      intro j hj
      have := hmin (j + 1) (by omega)
      have he2 : idx + (i + (j + 1)) = idx + (i + 1 + j) := by omega
      rw [he2] at this
      exact this

theorem probeFind_sound {arr : List BucketItem} {key : BucketKey} {eok : Bool}
    {idx p : Nat} (h : probeFind arr key eok idx = some p) :
    ∃ t < arr.length, p = (idx + t) % arr.length ∧ goodSlot arr key eok p ∧
      ∀ j, j < t → ¬ goodSlot arr key eok ((idx + j) % arr.length) := by
  obtain ⟨t, ht, hp, hg, hmin⟩ := probeFindAux_sound h
  exact ⟨t, ht, by simpa using hp, hg, fun j hj => by simpa using hmin j hj⟩

theorem probeFind_complete {arr : List BucketItem} {key : BucketKey} {eok : Bool}
    {idx t : Nat} (ht : t < arr.length)
    (hg : goodSlot arr key eok ((idx + t) % arr.length))
    (hmin : ∀ j, j < t → ¬ goodSlot arr key eok ((idx + j) % arr.length)) :
    probeFind arr key eok idx = some ((idx + t) % arr.length) := by
  unfold probeFind
  have := @probeFindAux_complete arr key eok idx arr.length 0 t ht
    (by simpa using hg) (fun j hj => by simpa using hmin j hj)
  simpa using this

theorem probeFind_of_exists {arr : List BucketItem} {key : BucketKey} {eok : Bool}
    {idx : Nat} (h : ∃ t, t < arr.length ∧ goodSlot arr key eok ((idx + t) % arr.length)) :
    ∃ p, probeFind arr key eok idx = some p ∧ goodSlot arr key eok p := by
  classical
  have h' : ∃ t, goodSlot arr key eok ((idx + t) % arr.length) := by
    obtain ⟨t, _, hg⟩ := h
    exact ⟨t, hg⟩
  set t0 := Nat.find h' with ht0def
  have hg0 : goodSlot arr key eok ((idx + t0) % arr.length) := Nat.find_spec h'
  have ht0lt : t0 < arr.length := by
    obtain ⟨t, ht, hg⟩ := h
    exact lt_of_le_of_lt (Nat.find_min' h' hg) ht
  have hmin : ∀ j, j < t0 → ¬ goodSlot arr key eok ((idx + j) % arr.length) :=
    fun j hj => Nat.find_min h' hj
  exact ⟨(idx + t0) % arr.length, probeFind_complete ht0lt hg0 hmin, hg0⟩

/-! ### Characterization of the regrow inner loop -/

theorem firstEmptyAux_sound {arr : List BucketItem} {idx : Nat} :
    ∀ {fuel j p : Nat},
    firstEmptyAux arr idx j fuel = some p →
    ∃ t, t < fuel ∧ p = (idx + (j + t)) % arr.length ∧
      (arr.getD p zeroItem).data = 0 ∧
      ∀ s, s < t → (arr.getD ((idx + (j + s)) % arr.length) zeroItem).data ≠ 0 := by
  intro fuel
  induction fuel with
  | zero => intro j p h; simp [firstEmptyAux] at h
  | succ fuel ih =>
    intro j p h
    simp only [firstEmptyAux] at h
    split at h
    · rename_i hcond
      have hp : p = (idx + j) % arr.length := (Option.some_inj.mp h).symm
      exact ⟨0, by omega, by simpa using hp, hp ▸ hcond, by omega⟩
    · rename_i hcond
      obtain ⟨t, ht, hp, hz, hmin⟩ := ih h
      refine ⟨t + 1, by omega, by rw [hp]; congr 2; omega, hz, ?_⟩
      intro s hs
      cases s with
      | zero => simpa using hcond
      | succ s' =>
        have := hmin s' (by omega)
        have he : idx + (j + (s' + 1)) = idx + (j + 1 + s') := by omega
        rw [he]
        exact this

theorem firstEmptyAux_complete {arr : List BucketItem} {idx : Nat} :
    ∀ {fuel j t : Nat},
    t < fuel →
    (arr.getD ((idx + (j + t)) % arr.length) zeroItem).data = 0 →
    (∀ s, s < t → (arr.getD ((idx + (j + s)) % arr.length) zeroItem).data ≠ 0) →
    firstEmptyAux arr idx j fuel = some ((idx + (j + t)) % arr.length) := by
  intro fuel
  induction fuel with
  | zero => omega
  | succ fuel ih =>
    intro j t ht hz hmin
    simp only [firstEmptyAux]
    cases t with
    | zero =>
      simp only [Nat.add_zero] at hz
      rw [if_pos hz]; simp
    | succ t' =>
      have h0 := hmin 0 (by omega)
      simp only [Nat.add_zero] at h0
      rw [if_neg h0]
      have he : idx + (j + (t' + 1)) = idx + (j + 1 + t') := by omega
      rw [he] at hz ⊢
      refine ih (by omega) hz ?_
      intro s hs
      have := hmin (s + 1) (by omega)
      have he2 : idx + (j + (s + 1)) = idx + (j + 1 + s) := by omega
      rw [he2] at this
      exact this

theorem firstEmpty_sound {arr : List BucketItem} {idx p : Nat}
    (h : firstEmpty arr idx = some p) :
    ∃ t < arr.length, p = (idx + t) % arr.length ∧
      (arr.getD p zeroItem).data = 0 ∧
      ∀ s, s < t → (arr.getD ((idx + s) % arr.length) zeroItem).data ≠ 0 := by
  obtain ⟨t, ht, hp, hz, hmin⟩ := firstEmptyAux_sound h
  exact ⟨t, ht, by simpa using hp, hz, fun s hs => by simpa using hmin s hs⟩

theorem firstEmpty_of_exists {arr : List BucketItem} {idx : Nat}
    (h : ∃ t, t < arr.length ∧ (arr.getD ((idx + t) % arr.length) zeroItem).data = 0) :
    ∃ p, firstEmpty arr idx = some p ∧ (arr.getD p zeroItem).data = 0 := by
  classical
  have h' : ∃ t, (arr.getD ((idx + t) % arr.length) zeroItem).data = 0 := by
    obtain ⟨t, _, hz⟩ := h
    exact ⟨t, hz⟩
  set t0 := Nat.find h' with ht0def
  have hz0 : (arr.getD ((idx + t0) % arr.length) zeroItem).data = 0 := Nat.find_spec h'
  have ht0lt : t0 < arr.length := by
    obtain ⟨t, ht, hz⟩ := h
    exact lt_of_le_of_lt (Nat.find_min' h' hz) ht
  have hmin : ∀ s, s < t0 → (arr.getD ((idx + s) % arr.length) zeroItem).data ≠ 0 :=
    fun s hs => Nat.find_min h' hs
  refine ⟨(idx + t0) % arr.length, ?_, hz0⟩
  unfold firstEmpty
  have := @firstEmptyAux_complete arr idx arr.length 0 t0 ht0lt
    (by simpa using hz0) (fun s hs => by simpa using hmin s hs)
  simpa using this

/-! ### Occupied-slot bookkeeping -/

theorem occ_nil : occ [] = [] := rfl

theorem occ_cons_pos {a : BucketItem} (ha : a.data ≠ 0) (l : List BucketItem) :
    occ (a :: l) = a :: occ l := by
  simp [occ, List.filter_cons, ha]

theorem occ_cons_zero {a : BucketItem} (ha : a.data = 0) (l : List BucketItem) :
    occ (a :: l) = occ l := by
  simp [occ, List.filter_cons, ha]

theorem occ_length_le (l : List BucketItem) : (occ l).length ≤ l.length :=
  List.length_filter_le _ l

theorem occM_nil : occM [] = 0 := rfl

theorem occM_cons_pos {a : BucketItem} (ha : a.data ≠ 0) (l : List BucketItem) :
    occM (a :: l) = a ::ₘ occM l := by
  simp [occM, occ_cons_pos ha]

theorem occM_cons_zero {a : BucketItem} (ha : a.data = 0) (l : List BucketItem) :
    occM (a :: l) = occM l := by
  simp [occM, occ_cons_zero ha]

theorem occM_card (l : List BucketItem) : Multiset.card (occM l) = (occ l).length := by
  simp [occM]

theorem exists_empty_of_occ_lt {l : List BucketItem}
    (h : (occ l).length < l.length) :
    ∃ p < l.length, (l.getD p zeroItem).data = 0 := by
  induction l with
  | nil => simp at h
  | cons a tl ih =>
    by_cases ha : a.data = 0
    · exact ⟨0, by simp, ha⟩
    · rw [occ_cons_pos ha] at h
      obtain ⟨p, hp, hz⟩ := ih (by simpa using h)
      exact ⟨p + 1, by simpa using hp, hz⟩

theorem occM_set_of_empty {l : List BucketItem} {p : Nat} (hp : p < l.length)
    (he : (l.getD p zeroItem).data = 0) {x : BucketItem} (hx : x.data ≠ 0) :
    occM (l.set p x) = x ::ₘ occM l := by
  induction l generalizing p with
  | nil => simp at hp
  | cons a tl ih =>
    cases p with
    | zero =>
      have ha : a.data = 0 := he
      simp only [List.set]
      rw [occM_cons_pos hx, occM_cons_zero ha]
    | succ q =>
      have hq : q < tl.length := by simpa using hp
      have he' : (tl.getD q zeroItem).data = 0 := he
      simp only [List.set]
      by_cases ha : a.data = 0
      · rw [occM_cons_zero ha, occM_cons_zero ha]
        exact ih hq he'
      · rw [occM_cons_pos ha, occM_cons_pos ha, ih hq he']
        exact (Multiset.cons_swap x a (occM tl)).symm

theorem occM_set_of_zero {l : List BucketItem} {p : Nat} (hp : p < l.length)
    (he : (l.getD p zeroItem).data = 0) {x : BucketItem} (hx : x.data = 0) :
    occM (l.set p x) = occM l := by
  induction l generalizing p with
  | nil => simp at hp
  | cons a tl ih =>
    cases p with
    | zero =>
      have ha : a.data = 0 := he
      simp only [List.set]
      rw [occM_cons_zero hx, occM_cons_zero ha]
    | succ q =>
      have hq : q < tl.length := by simpa using hp
      have he' : (tl.getD q zeroItem).data = 0 := he
      simp only [List.set]
      by_cases ha : a.data = 0
      · rw [occM_cons_zero ha, occM_cons_zero ha]
        exact ih hq he'
      · rw [occM_cons_pos ha, occM_cons_pos ha, ih hq he']

theorem mem_occ_iff {l : List BucketItem} {x : BucketItem} :
    x ∈ occ l ↔ x ∈ l ∧ x.data ≠ 0 := by
  simp [occ, List.mem_filter]

theorem occ_getD_mem {l : List BucketItem} {p : Nat} (hp : p < l.length)
    (h : (l.getD p zeroItem).data ≠ 0) : l.getD p zeroItem ∈ occ l :=
  mem_occ_iff.mpr ⟨getD_mem hp zeroItem, h⟩

/-! ### Structural lemmas about the operations -/

theorem setBucket_table_length (m : HashMap) (n : Nat) (b : Bucket) :
    (setBucket m n b).table.length = m.table.length := by
  simp [setBucket]

theorem bucketAt_setBucket_self {m : HashMap} {n : Nat} (h : n < m.table.length)
    (b : Bucket) : bucketAt (setBucket m n b) n = b := by
  unfold bucketAt setBucket
  exact getD_set_self h b emptyBucket

theorem bucketAt_setBucket_ne {m : HashMap} {n q : Nat} (h : n ≠ q)
    (b : Bucket) : bucketAt (setBucket m n b) q = bucketAt m q := by
  unfold bucketAt setBucket
  exact getD_set_ne m.table h b emptyBucket

theorem grow_false_spec {o : AllocOracle} {m m1 : HashMap} {k : BucketKey}
    (h : growNodeIfNeeded o m k = (false, m1)) :
    m1.table = m.table ∧ m1.hash_function = m.hash_function ∧
      m1.hasFree = m.hasFree := by
  simp only [growNodeIfNeeded] at h
  split at h
  · injection h with h1 h2; cases h1
  · split at h
    · split at h
      · split at h
        · split at h
          · injection h with h1 h2; cases h1
          · injection h with h1 h2; exact h2 ▸ ⟨rfl, rfl, rfl⟩
        · injection h with h1 h2; exact h2 ▸ ⟨rfl, rfl, rfl⟩
      · split at h
        · injection h with h1 h2; cases h1
        · injection h with h1 h2; exact h2 ▸ ⟨rfl, rfl, rfl⟩
    · split at h
      · injection h with h1 h2; cases h1
      · injection h with h1 h2; exact h2 ▸ ⟨rfl, rfl, rfl⟩

theorem grow_true_spec {o : AllocOracle} {m m1 : HashMap} {k : BucketKey}
    (h : growNodeIfNeeded o m k = (true, m1)) :
    ∃ mA : HashMap, mA.table = m.table ∧ mA.hash_function = m.hash_function ∧
      mA.hasFree = m.hasFree ∧
      ((bucketAt m (bucketIndex m k)).count + 1 <
          (bucketAt m (bucketIndex m k)).items.length ∧ m1 = mA ∨
       ¬ ((bucketAt m (bucketIndex m k)).count + 1 <
          (bucketAt m (bucketIndex m k)).items.length) ∧
         (bucketAt m (bucketIndex m k)).items.length = 0 ∧
         m1 = setBucket mA (bucketIndex m k)
           ⟨List.replicate 8 zeroItem, (bucketAt m (bucketIndex m k)).count⟩ ∨
       ¬ ((bucketAt m (bucketIndex m k)).count + 1 <
          (bucketAt m (bucketIndex m k)).items.length) ∧
         0 < (bucketAt m (bucketIndex m k)).items.length ∧
         m1 = setBucket mA (bucketIndex m k)
           ⟨reloc (bucketAt m (bucketIndex m k)).items
              (List.replicate ((bucketAt m (bucketIndex m k)).items.length * 2)
                zeroItem),
            (bucketAt m (bucketIndex m k)).count⟩) := by
  simp only [growNodeIfNeeded] at h
  split at h
  · rename_i hlt
    injection h with h1 h2
    exact ⟨m, rfl, rfl, rfl, Or.inl ⟨hlt, h2.symm⟩⟩
  · rename_i hnlt
    split at h
    · rename_i hpos
      rw [if_neg (by omega : ¬ (bucketAt m (bucketIndex m k)).items.length = 0)] at h
      split at h
      · split at h
        · split at h
          · rename_i hio
            injection h with h1 h2
            refine ⟨{ m with tmpCapacity := (bucketAt m (bucketIndex m k)).items.length },
              rfl, rfl, rfl, Or.inr (Or.inr ⟨hnlt, hpos, h2.symm⟩)⟩
          · injection h with h1 h2; cases h1
        · injection h with h1 h2; cases h1
      · split at h
        · injection h with h1 h2
          exact ⟨m, rfl, rfl, rfl, Or.inr (Or.inr ⟨hnlt, hpos, h2.symm⟩)⟩
        · injection h with h1 h2; cases h1
    · rename_i hnpos
      have hz : (bucketAt m (bucketIndex m k)).items.length = 0 := by omega
      rw [if_pos hz] at h
      split at h
      · injection h with h1 h2
        exact ⟨m, rfl, rfl, rfl, Or.inr (Or.inl ⟨hnlt, hz, h2.symm⟩)⟩
      · injection h with h1 h2; cases h1

theorem grow_allocOk_fst {m : HashMap} {k : BucketKey} :
    (growNodeIfNeeded allocOk m k).1 = true := by
  show (growNodeIfNeeded ⟨true, true⟩ m k).1 = true
  simp only [growNodeIfNeeded]
  split
  · rfl
  · split
    · split
      · rfl
      · rfl
    · rfl

theorem grow_snd_fields (o : AllocOracle) (m : HashMap) (k : BucketKey) :
    ((growNodeIfNeeded o m k).2).hash_function = m.hash_function ∧
    ((growNodeIfNeeded o m k).2).hasFree = m.hasFree ∧
    ((growNodeIfNeeded o m k).2).table.length = m.table.length := by
  rcases hg : growNodeIfNeeded o m k with ⟨ok, m1⟩
  cases ok
  · obtain ⟨ht, hh, hf⟩ := grow_false_spec hg
    exact ⟨hh, hf, by rw [ht]⟩
  · obtain ⟨mA, hta, hha, hfa, hcase⟩ := grow_true_spec hg
    rcases hcase with ⟨-, rfl⟩ | ⟨-, -, rfl⟩ | ⟨-, -, rfl⟩
    · exact ⟨hha, hfa, by rw [hta]⟩
    · exact ⟨hha, hfa, by rw [setBucket_table_length, hta]⟩
    · exact ⟨hha, hfa, by rw [setBucket_table_length, hta]⟩

theorem set_true_spec {o : AllocOracle} {m : HashMap} {k : BucketKey} {d : Nat}
    {m' : HashMap} {log : List Nat}
    (h : hashmapSetK o m k d = (true, m', log)) :
    ∃ m1 pos,
      growNodeIfNeeded o m k = (true, m1) ∧
      getItemPos m1 k true = some pos ∧
      (((bucketAt m1 (bucketIndex m1 k)).items.getD pos zeroItem).data = 0 ∧
         m' = setBucket m1 (bucketIndex m1 k)
           ⟨(bucketAt m1 (bucketIndex m1 k)).items.set pos ⟨k, d⟩,
            (bucketAt m1 (bucketIndex m1 k)).count + 1⟩ ∧ log = [] ∨
       ((bucketAt m1 (bucketIndex m1 k)).items.getD pos zeroItem).data ≠ 0 ∧
         m' = setBucket m1 (bucketIndex m1 k)
           ⟨(bucketAt m1 (bucketIndex m1 k)).items.set pos ⟨k, d⟩,
            (bucketAt m1 (bucketIndex m1 k)).count⟩ ∧
         log = (if m1.hasFree = true
           then [((bucketAt m1 (bucketIndex m1 k)).items.getD pos zeroItem).data]
           else [])) := by
  unfold hashmapSetK at h
  rcases hg : growNodeIfNeeded o m k with ⟨ok, m1⟩
  rw [hg] at h
  cases ok
  · simp at h
  · simp only at h
    rcases hfind : getItemPos m1 k true with _ | pos
    · rw [hfind] at h; simp at h
    · rw [hfind] at h
      simp only at h
      split at h
      · rename_i hz
        refine ⟨m1, pos, rfl, hfind, Or.inl ⟨hz, ?_, ?_⟩⟩
        · exact (congrArg (fun r => r.2.1) h).symm
        · exact (congrArg (fun r => r.2.2) h).symm
      · rename_i hz
        refine ⟨m1, pos, rfl, hfind, Or.inr ⟨hz, ?_, ?_⟩⟩
        · exact (congrArg (fun r => r.2.1) h).symm
        · exact (congrArg (fun r => r.2.2) h).symm

theorem setK_fields (o : AllocOracle) (m : HashMap) (k : BucketKey) (d : Nat) :
    ((hashmapSetK o m k d).2.1).hash_function = m.hash_function ∧
    ((hashmapSetK o m k d).2.1).hasFree = m.hasFree ∧
    ((hashmapSetK o m k d).2.1).table.length = m.table.length := by
  unfold hashmapSetK
  rcases hg : growNodeIfNeeded o m k with ⟨ok, m1⟩
  have hfields : m1.hash_function = m.hash_function ∧ m1.hasFree = m.hasFree ∧
      m1.table.length = m.table.length := by
    have := grow_snd_fields o m k
    rw [hg] at this
    exact this
  cases ok
  · simpa using hfields
  · simp only
    rcases hfind : getItemPos m1 k true with _ | pos
    · simpa using hfields
    · simp only
      split
      · simpa [setBucket_table_length] using hfields
      · simpa [setBucket_table_length] using hfields

theorem getItemPos_some {m : HashMap} {k : BucketKey} {eok : Bool} {pos : Nat}
    (h : getItemPos m k eok = some pos) :
    (bucketAt m (bucketIndex m k)).items.length ≠ 0 ∧
    probeFind (bucketAt m (bucketIndex m k)).items k eok
      (k.skey % (bucketAt m (bucketIndex m k)).items.length) = some pos := by
  simp only [getItemPos] at h
  split at h
  · simp at h
  · exact ⟨by assumption, h⟩

theorem probeFind_update {arr : List BucketItem} {key : BucketKey}
    {idx t pos : Nat} {x : BucketItem}
    (ht : t < arr.length) (hp : pos = (idx + t) % arr.length)
    (hmin : ∀ j, j < t → ¬ goodSlot arr key true ((idx + j) % arr.length))
    (hx : x.data ≠ 0) (hk : x.key = key) :
    probeFind (arr.set pos x) key false idx = some pos := by
  have hlen : (arr.set pos x).length = arr.length := List.length_set ..
  have hposlt : pos < arr.length := by
    rw [hp]; exact Nat.mod_lt _ (by omega)
  have hgd : (arr.set pos x).getD pos zeroItem = x := getD_set_self hposlt ..
  have hgood : goodSlot (arr.set pos x) key false pos := by
    unfold goodSlot
    rw [hgd]
    exact Or.inl ⟨hx, hk⟩
  have hmin' : ∀ j, j < t →
      ¬ goodSlot (arr.set pos x) key false ((idx + j) % (arr.set pos x).length) := by
    intro j hj hgj
    have hjlen : j < arr.length := by omega
    have hne : pos ≠ (idx + j) % arr.length := by
      intro he
      have := probe_inj hjlen ht (he ▸ hp.symm).symm
      omega
    rw [hlen] at hgj
    have hgd2 : (arr.set pos x).getD ((idx + j) % arr.length) zeroItem
        = arr.getD ((idx + j) % arr.length) zeroItem := getD_set_ne arr hne ..
    apply hmin j hj
    unfold goodSlot at hgj ⊢
    rw [hgd2] at hgj
    rcases hgj with h1 | h2
    · exact Or.inl h1
    · cases h2.1
  have := @probeFind_complete (arr.set pos x) key false idx t
    (by omega : t < (arr.set pos x).length) ?_ hmin'
  · rw [this]
    congr 1
    rw [hlen, hp]
  · rw [hlen, ← hp]
    exact hgood

theorem setK_get {o : AllocOracle} {m : HashMap} {k : BucketKey} {d : Nat}
    {m' : HashMap} {log : List Nat}
    (h : hashmapSetK o m k d = (true, m', log)) (hd : d ≠ 0) :
    hashmapGetK m' k = d := by
  obtain ⟨m1, pos, hg, hfind, hbr⟩ := set_true_spec h
  obtain ⟨hlen0, hpf⟩ := getItemPos_some hfind
  have hm' : ∃ c', m' = setBucket m1 (bucketIndex m1 k)
      ⟨(bucketAt m1 (bucketIndex m1 k)).items.set pos ⟨k, d⟩, c'⟩ := by
    rcases hbr with ⟨_, hm, _⟩ | ⟨_, hm, _⟩ <;> exact ⟨_, hm⟩
  obtain ⟨c', hm⟩ := hm'
  have hlenpos : 0 < (bucketAt m1 (bucketIndex m1 k)).items.length :=
    Nat.pos_of_ne_zero hlen0
  have htl : 0 < m1.table.length := by
    by_contra hc
    push_neg at hc
    have h0 : m1.table = [] := List.length_eq_zero.mp (by omega)
    have heb : bucketAt m1 (bucketIndex m1 k) = emptyBucket := by
      simp [bucketAt, h0]
    rw [heb] at hlenpos
    simp [emptyBucket] at hlenpos
  have hnlt : bucketIndex m1 k < m1.table.length := Nat.mod_lt _ htl
  obtain ⟨t, ht, hp, hgood, hmin⟩ := probeFind_sound hpf
  have hbI : bucketIndex m' k = bucketIndex m1 k := by
    unfold bucketIndex
    rw [hm, setBucket_table_length]
  have hbA : bucketAt m' (bucketIndex m' k) =
      ⟨(bucketAt m1 (bucketIndex m1 k)).items.set pos ⟨k, d⟩, c'⟩ := by
    rw [hbI, hm]
    exact bucketAt_setBucket_self hnlt _
  have hpf' : probeFind ((bucketAt m1 (bucketIndex m1 k)).items.set pos ⟨k, d⟩)
      k false (k.skey % (bucketAt m1 (bucketIndex m1 k)).items.length) = some pos :=
    probeFind_update ht hp hmin hd rfl
  have hposlt : pos < (bucketAt m1 (bucketIndex m1 k)).items.length := by
    rw [hp]; exact Nat.mod_lt _ hlenpos
  unfold hashmapGetK getItemPos
  rw [hbA]
  simp only [List.length_set]
  rw [if_neg hlen0, hpf']
  exact congrArg BucketItem.data (getD_set_self hposlt ..)

theorem computeKey_congr {m m' : HashMap}
    (h : m'.hash_function = m.hash_function) (key : String) :
    computeKey m' key = computeKey m key := by
  unfold computeKey
  rw [h]

theorem goodSlot_false_iff {arr : List BucketItem} {key : BucketKey} {pos : Nat} :
    goodSlot arr key false pos ↔ matchesAt arr key pos := by
  unfold goodSlot matchesAt
  simp

/-! ### Claim theorems -/

/-- C1: for every non-empty string key K and nonzero data reference D, if
`hashmap_set(map, K, D)` returns true, then an immediately following
`hashmap_get(map, K)` returns D. -/
theorem spec_c1_set_then_get {o : AllocOracle} {m : HashMap} {key : String}
    {d : Nat} {m' : HashMap} {log : List Nat}
    (_hkey : key ≠ "") (hd : d ≠ 0)
    (h : hashmap_set o m key d = (true, m', log)) :
    hashmap_get m' key = d := by
  unfold hashmap_set at h
  have hm' : (hashmapSetK o m (computeKey m key) d).2.1 = m' := by rw [h]
  have hhash : m'.hash_function = m.hash_function := by
    rw [← hm']
    exact (setK_fields o m (computeKey m key) d).1
  unfold hashmap_get
  rw [computeKey_congr hhash]
  exact setK_get h hd

/-- C1 witness: a concrete successful set followed by a get. -/
theorem spec_c1_set_then_get_witness :
    ("ab" : String) ≠ "" ∧ (9 : Nat) ≠ 0 ∧
    (hashmap_set allocOk (hashmap_create 4 (fun s => s.length) false) "ab" 9).1
      = true ∧
    hashmap_get
      (hashmap_set allocOk (hashmap_create 4 (fun s => s.length) false) "ab" 9).2.1
      "ab" = 9 := by
  refine ⟨by decide, by decide, by decide, ?_⟩
  exact spec_c1_set_then_get (by decide) (by decide)
    (rfl :
      hashmap_set allocOk (hashmap_create 4 (fun s => s.length) false) "ab" 9
        = (true,
          (hashmap_set allocOk (hashmap_create 4 (fun s => s.length) false) "ab" 9).2.1,
          (hashmap_set allocOk (hashmap_create 4 (fun s => s.length) false) "ab" 9).2.2))

/-- C9: the lookup scan examines all capacity slots starting at
`secondary mod capacity`, wrapping modulo capacity, and never stops early at
an empty slot: `hashmap_get` returns the data of the first matching occupied
slot in probe order, even when empty slots precede it in the probe sequence. -/
theorem spec_c9_full_scan_lookup (m : HashMap) (k : BucketKey) (t : Nat)
    (ht : t < (bucketAt m (bucketIndex m k)).items.length)
    (hmatch : matchesAt (bucketAt m (bucketIndex m k)).items k
      ((k.skey % (bucketAt m (bucketIndex m k)).items.length + t) %
        (bucketAt m (bucketIndex m k)).items.length))
    (hfirst : ∀ j, j < t → ¬ matchesAt (bucketAt m (bucketIndex m k)).items k
      ((k.skey % (bucketAt m (bucketIndex m k)).items.length + j) %
        (bucketAt m (bucketIndex m k)).items.length)) :
    hashmapGetK m k =
      ((bucketAt m (bucketIndex m k)).items.getD
        ((k.skey % (bucketAt m (bucketIndex m k)).items.length + t) %
          (bucketAt m (bucketIndex m k)).items.length) zeroItem).data := by
  have hlen0 : (bucketAt m (bucketIndex m k)).items.length ≠ 0 := by omega
  have hpf := @probeFind_complete (bucketAt m (bucketIndex m k)).items k false
    (k.skey % (bucketAt m (bucketIndex m k)).items.length) t ht
    (goodSlot_false_iff.mpr hmatch)
    (fun j hj hg => hfirst j hj (goodSlot_false_iff.mp hg))
  unfold hashmapGetK
  simp only [getItemPos]
  rw [if_neg hlen0, hpf]

/-- C9 witness: an empty slot at probe offset 0, the key's slot at offset 1. -/
theorem spec_c9_full_scan_lookup_witness :
    (1 < (bucketAt c9map (bucketIndex c9map ⟨0, 0⟩)).items.length ∧
     matchesAt (bucketAt c9map (bucketIndex c9map ⟨0, 0⟩)).items ⟨0, 0⟩ 1 ∧
     ¬ matchesAt (bucketAt c9map (bucketIndex c9map ⟨0, 0⟩)).items ⟨0, 0⟩ 0) ∧
    hashmapGetK c9map ⟨0, 0⟩ = 7 := by
  refine ⟨by decide, ?_⟩
  have := spec_c9_full_scan_lookup c9map ⟨0, 0⟩ 1 (by decide) (by decide)
    (by decide)
  simpa using this

/-- C10: whenever `hashmap_delete` returns false, it writes nothing through
the out-parameter and leaves the container state unchanged. -/
theorem spec_c10_delete_false_frame {m : HashMap} {key : String} {w : Bool}
    {m' : HashMap} {out : Option Nat}
    (h : hashmap_delete m key w = some (false, m', out)) :
    m' = m ∧ out = none := by
  unfold hashmap_delete at h
  simp only [hashmapDeleteK] at h
  split at h
  · simp at h
  · split at h
    · rw [Option.some_inj] at h
      have h1 := congrArg (fun r => r.2.1) h
      have h2 := congrArg (fun r => r.2.2) h
      exact ⟨h1.symm, h2.symm⟩
    · rw [Option.some_inj] at h
      have h1 := congrArg (fun r => r.1) h
      simp at h1

/-- C10 witness: deleting an absent key returns false and changes nothing. -/
theorem spec_c10_delete_false_frame_witness :
    hashmap_delete c10map "b" true = some (false, c10map, none) ∧
    c10map = c10map ∧ (none : Option Nat) = none := by
  refine ⟨rfl, ?_⟩
  exact spec_c10_delete_false_frame
    (rfl : hashmap_delete c10map "b" true = some (false, c10map, none))

/-- C2: evaluation at a failing input.  After inserting one entry, a
successful `hashmap_delete` resets the slot to the canonical unused state and
writes the former data reference through the out-parameter, but the bucket's
occupied count *as stored in the container* stays 1 instead of dropping to 0:
the source decrements the `count` field of a by-value copy of the bucket
struct, so the decrement is lost. -/
theorem spec_c2_count_not_decremented :
    (hashmap_set allocOk (hashmap_create 1 hzero false) "a" 1).1 = true ∧
    (bucketAt c2map 0).count = 1 ∧
    (hashmap_delete c2map "a" true).map
      (fun r => (r.1, (bucketAt r.2.1 0).items.getD 0 zeroItem,
        (bucketAt r.2.1 0).count, r.2.2))
      = some (true, zeroItem, 1, some 1) := by
  refine ⟨by decide, by decide, by decide⟩

/-- C3: evaluation at a failing input.  The key "b" is stored at probe offset
1 of its probe sequence and offset 0 is occupied (by "a"), so by the claim
`hashmap_delete` must find it; but the deletion loop increments its counter
twice per iteration (a stray `i++` in the body on top of the loop header's),
examines only offsets 0, 2, 4, ... and returns false, even though
`hashmap_get` finds the entry. -/
theorem spec_c3_delete_misses_offset_one :
    ((bucketAt c3map 0).items.getD 0 zeroItem).data = 1 ∧
    (bucketAt c3map 0).items.getD 1 zeroItem = ⟨⟨0, 8⟩, 2⟩ ∧
    hashmap_get c3map "b" = 2 ∧
    (hashmap_delete c3map "b" true).map (fun r => (r.1, r.2.2))
      = some (false, none) := by
  refine ⟨by decide, by decide, by decide, by decide⟩

/-- C4: evaluation at a failing input.  On a freshly created container the
key's bucket has capacity 0: `hashmap_get` correctly reports not-found (the
guard in `_get_item`), but `hashmap_delete` evaluates
`ukey.skey % node.capacity` with `node.capacity == 0` — a division by zero,
i.e. undefined behaviour (modelled as `none`) — instead of returning false. -/
theorem spec_c4_delete_on_fresh_bucket_ub :
    hashmap_get (hashmap_create 1 hzero false) "a" = 0 ∧
    (bucketAt (hashmap_create 1 hzero false) 0).capacity = 0 ∧
    hashmap_delete (hashmap_create 1 hzero false) "a" true = none := by
  refine ⟨by decide, by decide, rfl⟩

/-- C6: if `hashmap_set` fails because an allocation fails during bucket
growth (scratch-buffer reallocation or slot-array reallocation), the whole
table — in particular the destination bucket's capacity, count and every
stored key and data reference — is unchanged, and the destroy callback is
invoked on nothing. -/
theorem spec_c6_grow_failure_frame {o : AllocOracle} {m : HashMap}
    {key : String} {d : Nat} {m1 : HashMap}
    (h : growNodeIfNeeded o m (computeKey m key) = (false, m1)) :
    hashmap_set o m key d = (false, m1, []) ∧ m1.table = m.table := by
  refine ⟨?_, (grow_false_spec h).1⟩
  unfold hashmap_set hashmapSetK
  rw [h]

/-- C6 witness: failing the slot-array allocation on a fresh bucket fails the
set and leaves the (empty) table as it was. -/
theorem spec_c6_grow_failure_frame_witness :
    growNodeIfNeeded ⟨true, false⟩ (hashmap_create 1 hzero false)
      (computeKey (hashmap_create 1 hzero false) "a")
      = (false, hashmap_create 1 hzero false) ∧
    hashmap_set ⟨true, false⟩ (hashmap_create 1 hzero false) "a" 5
      = (false, hashmap_create 1 hzero false, []) ∧
    (hashmap_create 1 hzero false).table = (hashmap_create 1 hzero false).table := by
  refine ⟨rfl, ?_⟩
  exact spec_c6_grow_failure_frame
    (rfl : growNodeIfNeeded ⟨true, false⟩ (hashmap_create 1 hzero false)
      (computeKey (hashmap_create 1 hzero false) "a")
      = (false, hashmap_create 1 hzero false))

/-! ### Lengths through the regrow loop -/

theorem relocOne_length (arr : List BucketItem) (it : BucketItem) :
    (relocOne arr it).length = arr.length := by
  unfold relocOne
  split
  · exact List.length_set ..
  · rfl

theorem reloc_length (old : List BucketItem) : ∀ fresh : List BucketItem,
    (reloc old fresh).length = fresh.length := by
  induction old with
  | nil => intro fresh; rfl
  | cons it rest ih =>
    intro fresh
    show (reloc rest (relocOne fresh it)).length = fresh.length
    rw [ih (relocOne fresh it), relocOne_length]

/-! ### Preservation of bucket well-formedness -/

theorem bucketWF_emptyBucket : BucketWF emptyBucket := by
  constructor
  · intro _; rfl
  · intro h; simp [emptyBucket] at h

theorem bucketAt_WF {m : HashMap} (hWF : MapWF m) (n : Nat) :
    BucketWF (bucketAt m n) := by
  by_cases hn : n < m.table.length
  · exact hWF _ (getD_mem hn emptyBucket)
  · have : bucketAt m n = emptyBucket := by
      unfold bucketAt
      rw [List.getD_eq_default]
      omega
    rw [this]
    exact bucketWF_emptyBucket

theorem mapWF_congr_table {m m1 : HashMap} (h : m1.table = m.table)
    (hWF : MapWF m) : MapWF m1 := by
  intro b hb
  exact hWF b (h ▸ hb)

theorem setBucket_WF {m : HashMap} {n : Nat} {b : Bucket} (hWF : MapWF m)
    (hb : BucketWF b) : MapWF (setBucket m n b) := by
  intro b' hb'
  rcases List.mem_or_eq_of_mem_set hb' with h | h
  · exact hWF b' h
  · exact h ▸ hb

theorem grow_true_WF {o : AllocOracle} {m m1 : HashMap} {k : BucketKey}
    (hWF : MapWF m) (hg : growNodeIfNeeded o m k = (true, m1)) : MapWF m1 := by
  obtain ⟨mA, hta, hha, hfa, hcase⟩ := grow_true_spec hg
  have hWFA : MapWF mA := mapWF_congr_table hta hWF
  have hbWF : BucketWF (bucketAt m (bucketIndex m k)) := bucketAt_WF hWF _
  rcases hcase with ⟨hlt, rfl⟩ | ⟨hnlt, hz, rfl⟩ | ⟨hnlt, hpos, rfl⟩
  · exact hWFA
  · refine setBucket_WF hWFA ⟨?_, ?_⟩
    · intro h; simp at h
    · intro _
      have hc0 : (bucketAt m (bucketIndex m k)).count = 0 := hbWF.1 hz
      refine ⟨by simp [hc0], ⟨0, by simp⟩⟩
  · refine setBucket_WF hWFA ⟨?_, ?_⟩
    · intro h
      dsimp only at h
      rw [reloc_length, List.length_replicate] at h
      omega
    · intro _
      obtain ⟨hcnt, j, hj⟩ := hbWF.2 hpos
      dsimp only
      rw [reloc_length, List.length_replicate]
      refine ⟨by omega, ⟨j + 1, by rw [hj]; ring⟩⟩

theorem growK_WF {o : AllocOracle} {m : HashMap} {k : BucketKey}
    (hWF : MapWF m) : MapWF ((growNodeIfNeeded o m k).2) := by
  rcases hg : growNodeIfNeeded o m k with ⟨ok, m1⟩
  cases ok
  · exact mapWF_congr_table (grow_false_spec hg).1 hWF
  · exact grow_true_WF hWF hg

theorem bucketAt_congr_table {m m1 : HashMap} (h : m1.table = m.table)
    (n : Nat) : bucketAt m1 n = bucketAt m n := by
  unfold bucketAt
  rw [h]

theorem grow_true_room {o : AllocOracle} {m m1 : HashMap} {k : BucketKey}
    (hWF : MapWF m) (htl : 0 < m.table.length)
    (hg : growNodeIfNeeded o m k = (true, m1)) :
    (bucketAt m1 (bucketIndex m1 k)).count + 1 <
      (bucketAt m1 (bucketIndex m1 k)).items.length := by
  obtain ⟨mA, hta, hha, hfa, hcase⟩ := grow_true_spec hg
  have hbWF : BucketWF (bucketAt m (bucketIndex m k)) := bucketAt_WF hWF _
  have hnlt : bucketIndex m k < m.table.length := Nat.mod_lt _ htl
  have hAlen : mA.table.length = m.table.length := by rw [hta]
  rcases hcase with ⟨hlt, rfl⟩ | ⟨hnltc, hz, rfl⟩ | ⟨hnltc, hpos, rfl⟩
  · have hbi : bucketIndex m1 k = bucketIndex m k := by
      unfold bucketIndex; rw [hta]
    rw [hbi, bucketAt_congr_table hta]
    exact hlt
  · have hbi : bucketIndex (setBucket mA (bucketIndex m k)
        ⟨List.replicate 8 zeroItem, (bucketAt m (bucketIndex m k)).count⟩) k
        = bucketIndex m k := by
      unfold bucketIndex
      rw [setBucket_table_length, hAlen]
    rw [hbi, bucketAt_setBucket_self (by omega)]
    have hc0 : (bucketAt m (bucketIndex m k)).count = 0 := hbWF.1 hz
    simp [hc0]
  · have hbi : bucketIndex (setBucket mA (bucketIndex m k)
        ⟨reloc (bucketAt m (bucketIndex m k)).items
          (List.replicate ((bucketAt m (bucketIndex m k)).items.length * 2) zeroItem),
         (bucketAt m (bucketIndex m k)).count⟩) k
        = bucketIndex m k := by
      unfold bucketIndex
      rw [setBucket_table_length, hAlen]
    rw [hbi, bucketAt_setBucket_self (by omega)]
    obtain ⟨hcnt, j, hj⟩ := hbWF.2 hpos
    simp only [reloc_length, List.length_replicate]
    omega

theorem bucketAt_setBucket_oob {m : HashMap} {n : Nat}
    (h : ¬ n < m.table.length) (b : Bucket) (i : Nat) :
    bucketAt (setBucket m n b) i = bucketAt m i := by
  unfold bucketAt setBucket
  rw [List.set_eq_of_length_le (by omega)]

theorem setK_WF {o : AllocOracle} {m : HashMap} {k : BucketKey} {d : Nat}
    (hWF : MapWF m) : MapWF (hashmapSetK o m k d).2.1 := by
  unfold hashmapSetK
  rcases hg : growNodeIfNeeded o m k with ⟨ok, m1⟩
  cases ok
  · exact mapWF_congr_table (grow_false_spec hg).1 hWF
  · have hWF1 : MapWF m1 := grow_true_WF hWF hg
    simp only
    rcases hfind : getItemPos m1 k true with _ | pos
    · exact hWF1
    · simp only
      obtain ⟨hlen0, hpf⟩ := getItemPos_some hfind
      have htl1 : 0 < m1.table.length := by
        by_contra hc
        push_neg at hc
        have h0 : m1.table = [] := List.length_eq_zero.mp (by omega)
        have heb : bucketAt m1 (bucketIndex m1 k) = emptyBucket := by
          simp [bucketAt, h0]
        rw [heb] at hlen0
        simp [emptyBucket] at hlen0
      have htl : 0 < m.table.length := by
        have h2 := (grow_snd_fields o m k).2.2
        rw [hg] at h2
        simp at h2
        omega
      have hroom := grow_true_room hWF htl hg
      have hbWF1 : BucketWF (bucketAt m1 (bucketIndex m1 k)) := bucketAt_WF hWF1 _
      obtain ⟨hcnt, j, hj⟩ := hbWF1.2 (by omega)
      split
      · refine setBucket_WF hWF1 ⟨?_, ?_⟩
        · intro h
          dsimp only at h
          rw [List.length_set] at h
          omega
        · intro _
          dsimp only
          rw [List.length_set]
          exact ⟨by omega, ⟨j, hj⟩⟩
      · refine setBucket_WF hWF1 ⟨?_, ?_⟩
        · intro h
          dsimp only at h
          rw [List.length_set] at h
          omega
        · intro _
          dsimp only
          rw [List.length_set]
          exact ⟨by omega, ⟨j, hj⟩⟩

theorem deleteK_WF {m : HashMap} {k : BucketKey} {w : Bool}
    {r : Bool × HashMap × Option Nat}
    (h : hashmapDeleteK m k w = some r) (hWF : MapWF m) : MapWF r.2.1 := by
  simp only [hashmapDeleteK] at h
  split at h
  · simp at h
  · split at h
    · rw [Option.some_inj] at h
      have h1 := congrArg (fun x => x.2.1) h
      simp only at h1
      rw [← h1]
      exact hWF
    · rw [Option.some_inj] at h
      have h1 := congrArg (fun x => x.2.1) h
      simp only at h1
      rw [← h1]
      refine setBucket_WF hWF ?_
      have hbWF := bucketAt_WF hWF (bucketIndex m k)
      constructor
      · intro hlen
        dsimp only at hlen
        rw [List.length_set] at hlen
        exact hbWF.1 hlen
      · intro hlen
        dsimp only at hlen ⊢
        rw [List.length_set] at hlen ⊢
        exact hbWF.2 hlen

theorem reach_WF {m : HashMap} (h : Reachable m) : MapWF m := by
  induction h with
  | create cap hash hasFree hcap =>
    intro b hb
    have hb' : b = emptyBucket := List.eq_of_mem_replicate hb
    rw [hb']
    exact bucketWF_emptyBucket
  | set m o k d hm ih => exact setK_WF ih
  | delete m k w r hm hd ih => exact deleteK_WF hd ih

theorem grow_capacity_step (o : AllocOracle) (m : HashMap) (k : BucketKey)
    (i : Nat) :
    (bucketAt ((growNodeIfNeeded o m k).2) i).items.length
      = (bucketAt m i).items.length ∨
    ((bucketAt m i).items.length = 0 ∧
      (bucketAt ((growNodeIfNeeded o m k).2) i).items.length = 8) ∨
    (bucketAt ((growNodeIfNeeded o m k).2) i).items.length
      = (bucketAt m i).items.length * 2 := by
  rcases hg : growNodeIfNeeded o m k with ⟨ok, m1⟩
  cases ok
  · left
    simp only
    rw [bucketAt_congr_table (grow_false_spec hg).1]
  · obtain ⟨mA, hta, _, _, hcase⟩ := grow_true_spec hg
    have hAlen : mA.table.length = m.table.length := by rw [hta]
    rcases hcase with ⟨_, rfl⟩ | ⟨_, hz, rfl⟩ | ⟨_, hpos, rfl⟩
    · left
      simp only
      rw [bucketAt_congr_table hta]
    · by_cases hi : i = bucketIndex m k
      · by_cases hlt : bucketIndex m k < mA.table.length
        · right; left
          refine ⟨by rw [hi]; exact hz, ?_⟩
          simp only
          rw [hi, bucketAt_setBucket_self hlt]
          simp
        · left
          simp only
          rw [hi, bucketAt_setBucket_oob hlt, bucketAt_congr_table hta]
      · left
        simp only
        rw [bucketAt_setBucket_ne (fun hh => hi hh.symm),
          bucketAt_congr_table hta]
    · by_cases hi : i = bucketIndex m k
      · by_cases hlt : bucketIndex m k < mA.table.length
        · right; right
          simp only
          rw [hi, bucketAt_setBucket_self hlt]
          dsimp only
          rw [reloc_length, List.length_replicate]
        · left
          simp only
          rw [hi, bucketAt_setBucket_oob hlt, bucketAt_congr_table hta]
      · left
        simp only
        rw [bucketAt_setBucket_ne (fun hh => hi hh.symm),
          bucketAt_congr_table hta]

theorem setK_capacity_eq_grow (o : AllocOracle) (m : HashMap) (k : BucketKey)
    (d : Nat) (i : Nat) :
    (bucketAt (hashmapSetK o m k d).2.1 i).items.length
      = (bucketAt ((growNodeIfNeeded o m k).2) i).items.length := by
  unfold hashmapSetK
  rcases hg : growNodeIfNeeded o m k with ⟨ok, m1⟩
  cases ok
  · rfl
  · simp only
    rcases hfind : getItemPos m1 k true with _ | pos
    · rfl
    · simp only
      have hstep : ∀ c : Nat,
          (bucketAt (setBucket m1 (bucketIndex m1 k)
            ⟨(bucketAt m1 (bucketIndex m1 k)).items.set pos ⟨k, d⟩, c⟩) i).items.length
          = (bucketAt m1 i).items.length := by
        intro c
        by_cases hi : i = bucketIndex m1 k
        · by_cases hlt : bucketIndex m1 k < m1.table.length
          · rw [hi, bucketAt_setBucket_self hlt]
            dsimp only
            rw [List.length_set]
          · rw [hi, bucketAt_setBucket_oob hlt]
        · rw [bucketAt_setBucket_ne (fun hh => hi hh.symm)]
      split
      · exact hstep _
      · exact hstep _

theorem delete_capacity_step {m : HashMap} {k : BucketKey} {w : Bool}
    {r : Bool × HashMap × Option Nat}
    (h : hashmapDeleteK m k w = some r) (i : Nat) :
    (bucketAt r.2.1 i).items.length = (bucketAt m i).items.length := by
  simp only [hashmapDeleteK] at h
  split at h
  · simp at h
  · split at h
    · rw [Option.some_inj] at h
      have h1 := congrArg (fun x => x.2.1) h
      simp only at h1
      rw [← h1]
    · rw [Option.some_inj] at h
      have h1 := congrArg (fun x => x.2.1) h
      simp only at h1
      rw [← h1]
      by_cases hi : i = bucketIndex m k
      · by_cases hlt : bucketIndex m k < m.table.length
        · rw [hi, bucketAt_setBucket_self hlt]
          dsimp only
          rw [List.length_set]
        · rw [hi, bucketAt_setBucket_oob hlt]
      · rw [bucketAt_setBucket_ne (fun hh => hi hh.symm)]

/-- C5: in every container state reachable from `hashmap_create` by set, get,
delete and iterate operations (get and iterate are pure and contribute no
step), every bucket with positive capacity keeps its stored occupied count
strictly below its capacity, and its capacity has shape `8 * 2 ^ j`; moreover
a single set step changes a bucket's capacity only by leaving it, turning 0
into the base size 8, or doubling it, and a delete step never changes any
capacity. -/
theorem spec_c5_invariants {m : HashMap} (hm : Reachable m) :
    (∀ b ∈ m.table, (0 < b.capacity → b.count < b.capacity) ∧
       (b.capacity = 0 ∨ ∃ j, b.capacity = 8 * 2 ^ j)) ∧
    (∀ o k d i, (bucketAt (hashmapSetK o m k d).2.1 i).capacity
         = (bucketAt m i).capacity ∨
       ((bucketAt m i).capacity = 0 ∧
         (bucketAt (hashmapSetK o m k d).2.1 i).capacity = 8) ∨
       (bucketAt (hashmapSetK o m k d).2.1 i).capacity
         = (bucketAt m i).capacity * 2) ∧
    (∀ k w r, hashmapDeleteK m k w = some r →
       ∀ i, (bucketAt r.2.1 i).capacity = (bucketAt m i).capacity) := by
  have hWF := reach_WF hm
  refine ⟨?_, ?_, ?_⟩
  · intro b hb
    have hbWF := hWF b hb
    unfold Bucket.capacity
    refine ⟨fun h => (hbWF.2 h).1, ?_⟩
    rcases Nat.eq_zero_or_pos b.items.length with h | h
    · exact Or.inl h
    · exact Or.inr (hbWF.2 h).2
  · intro o k d i
    unfold Bucket.capacity
    rw [setK_capacity_eq_grow o m k d i]
    exact grow_capacity_step o m k i
  · intro k w r hr i
    unfold Bucket.capacity
    exact delete_capacity_step hr i

/-- C5 witness: the invariant instantiated on a freshly created container. -/
theorem spec_c5_invariants_witness :
    (0 < (bucketAt (hashmap_create 1 hzero false) 0).capacity →
      (bucketAt (hashmap_create 1 hzero false) 0).count
        < (bucketAt (hashmap_create 1 hzero false) 0).capacity) ∧
    ((bucketAt (hashmap_create 1 hzero false) 0).capacity = 0 ∨
      ∃ j, (bucketAt (hashmap_create 1 hzero false) 0).capacity = 8 * 2 ^ j) :=
  (spec_c5_invariants (Reachable.create 1 hzero false (by decide))).1
    (bucketAt (hashmap_create 1 hzero false) 0) (by decide)

/-! ### The regrow loop preserves the occupied slots -/

theorem occM_singleton_pos {it : BucketItem} (h : it.data ≠ 0) :
    occM [it] = {it} := by
  simp [occM, occ, List.filter_cons, h]

theorem occM_singleton_zero {it : BucketItem} (h : it.data = 0) :
    occM [it] = 0 := by
  simp [occM, occ, List.filter_cons, h]

theorem occ_cons_length (it : BucketItem) (l : List BucketItem) :
    (occ (it :: l)).length = (occ [it]).length + (occ l).length := by
  by_cases h : it.data = 0
  · rw [occ_cons_zero h]
    have hit : occ [it] = [] := by simp [occ, List.filter_cons, h]
    simp [hit]
  · rw [occ_cons_pos h]
    have hit : occ [it] = [it] := by simp [occ, List.filter_cons, h]
    simp [hit]
    omega

theorem occM_cons_split (it : BucketItem) (l : List BucketItem) :
    occM (it :: l) = occM [it] + occM l := by
  by_cases h : it.data = 0
  · rw [occM_cons_zero h, occM_singleton_zero h, zero_add]
  · rw [occM_cons_pos h, occM_singleton_pos h, Multiset.singleton_add]

theorem relocOne_occ {arr : List BucketItem} (it : BucketItem)
    (h : (occ arr).length < arr.length) :
    occM (relocOne arr it) = occM [it] + occM arr := by
  obtain ⟨p0, hp0, hz0⟩ := exists_empty_of_occ_lt h
  have hlen : 0 < arr.length := by omega
  obtain ⟨t, ht, hoff⟩ := @exists_offset arr.length (it.key.skey % arr.length) p0 hp0
  obtain ⟨p, hfe, hpz⟩ := firstEmpty_of_exists ⟨t, ht, by rw [hoff]; exact hz0⟩
  obtain ⟨t', ht', hp', _, _⟩ := firstEmpty_sound hfe
  have hplt : p < arr.length := by
    rw [hp']; exact Nat.mod_lt _ hlen
  unfold relocOne
  rw [hfe]
  by_cases hx : it.data = 0
  · rw [occM_set_of_zero hplt hpz hx, occM_singleton_zero hx, zero_add]
  · rw [occM_set_of_empty hplt hpz hx, occM_singleton_pos hx,
      Multiset.singleton_add]

theorem reloc_occ : ∀ (old fresh : List BucketItem),
    (occ old).length + (occ fresh).length < fresh.length →
    occM (reloc old fresh) = occM fresh + occM old := by
  intro old
  induction old with
  | nil => intro fresh h; simp [reloc, occM_nil]
  | cons it rest ih =>
    intro fresh h
    rw [occ_cons_length] at h
    have hfr : (occ fresh).length < fresh.length := by omega
    have h1 : occM (relocOne fresh it) = occM [it] + occM fresh :=
      relocOne_occ it hfr
    have hlen1 : (relocOne fresh it).length = fresh.length := relocOne_length ..
    have hocc1 : (occ (relocOne fresh it)).length
        = (occ [it]).length + (occ fresh).length := by
      have := occM_card (relocOne fresh it)
      rw [h1, Multiset.card_add, occM_card, occM_card] at this
      omega
    have hrec : (occ rest).length + (occ (relocOne fresh it)).length
        < (relocOne fresh it).length := by
      rw [hocc1, hlen1]
      omega
    show occM (reloc rest (relocOne fresh it)) = occM fresh + occM (it :: rest)
    rw [ih (relocOne fresh it) hrec, h1, occM_cons_split it rest,
      add_comm (occM [it]) (occM fresh), add_assoc]

/-! ### Unique-key lookup -/

theorem countP_le_one_unique {α : Type} {pr : α → Bool} {d : α} :
    ∀ {l : List α}, l.countP pr ≤ 1 →
    ∀ i, i < l.length → ∀ j, j < l.length →
    pr (l.getD i d) = true → pr (l.getD j d) = true → i = j := by
  intro l
  induction l with
  | nil => intro _ i hi; simp at hi
  | cons a tl ih =>
    intro h i hi j hj hpi hpj
    rw [List.countP_cons] at h
    cases i with
    | zero =>
      cases j with
      | zero => rfl
      | succ j' =>
        exfalso
        have hpa : pr a = true := hpi
        have : pr (tl.getD j' d) = true := hpj
        have hmem : tl.getD j' d ∈ tl := getD_mem (by simpa using hj) d
        have hpos : 0 < tl.countP pr :=
          List.countP_pos_iff.mpr ⟨tl.getD j' d, hmem, this⟩
        rw [if_pos hpa] at h
        omega
    | succ i' =>
      cases j with
      | zero =>
        exfalso
        have hpa : pr a = true := hpj
        have : pr (tl.getD i' d) = true := hpi
        have hmem : tl.getD i' d ∈ tl := getD_mem (by simpa using hi) d
        have hpos : 0 < tl.countP pr :=
          List.countP_pos_iff.mpr ⟨tl.getD i' d, hmem, this⟩
        rw [if_pos hpa] at h
        omega
      | succ j' =>
        have : i' = j' := ih (by omega) i' (by simpa using hi) j'
          (by simpa using hj) hpi hpj
        omega

theorem getK_unique {m : HashMap} {k : BucketKey} {D : Nat}
    (hmem : (⟨k, D⟩ : BucketItem) ∈ occ (bucketAt m (bucketIndex m k)).items)
    (huniq : ∀ it ∈ occ (bucketAt m (bucketIndex m k)).items,
      it.key = k → it = ⟨k, D⟩) :
    hashmapGetK m k = D := by
  obtain ⟨hmem', hD⟩ := mem_occ_iff.mp hmem
  obtain ⟨p, hp, hpe⟩ := List.getElem_of_mem hmem'
  have hlen : 0 < (bucketAt m (bucketIndex m k)).items.length := by omega
  have hgdp : (bucketAt m (bucketIndex m k)).items.getD p zeroItem = ⟨k, D⟩ := by
    rw [List.getD_eq_getElem _ _ hp, hpe]
  obtain ⟨t, ht, hoff⟩ := @exists_offset (bucketAt m (bucketIndex m k)).items.length
    (k.skey % (bucketAt m (bucketIndex m k)).items.length) p hp
  have hex : ∃ t', t' < (bucketAt m (bucketIndex m k)).items.length ∧
      goodSlot (bucketAt m (bucketIndex m k)).items k false
        ((k.skey % (bucketAt m (bucketIndex m k)).items.length + t') %
          (bucketAt m (bucketIndex m k)).items.length) :=
    ⟨t, ht, by rw [hoff]; unfold goodSlot; rw [hgdp]; exact Or.inl ⟨hD, rfl⟩⟩
  obtain ⟨pos, hpf, hgood⟩ := probeFind_of_exists hex
  obtain ⟨t0, ht0, hpos0, _, _⟩ := probeFind_sound hpf
  have hposlt : pos < (bucketAt m (bucketIndex m k)).items.length := by
    rw [hpos0]; exact Nat.mod_lt _ hlen
  have hget : hashmapGetK m k
      = ((bucketAt m (bucketIndex m k)).items.getD pos zeroItem).data := by
    unfold hashmapGetK
    simp only [getItemPos]
    rw [if_neg (by omega), hpf]
  rw [hget]
  rcases hgood with ⟨hd0, hk0⟩ | ⟨hfalse, _⟩
  · have hmem2 : (bucketAt m (bucketIndex m k)).items.getD pos zeroItem
        ∈ occ (bucketAt m (bucketIndex m k)).items := occ_getD_mem hposlt hd0
    rw [huniq _ hmem2 hk0]
  · cases hfalse

/-! ### The C8 growth scenario -/

theorem occ_replicate (nn : Nat) : occ (List.replicate nn zeroItem) = [] := by
  induction nn with
  | zero => rfl
  | succ n2 ih => rw [List.replicate_succ, occ_cons_zero rfl, ih]

theorem c8cap_pos {j : Nat} (h : 1 ≤ j) : 0 < c8cap j := by
  unfold c8cap
  split
  · omega
  · split <;> omega

theorem c8cap_gt {j : Nat} (hj : j ≤ 8) : j < c8cap (j + 1) := by
  unfold c8cap
  split
  · omega
  · split <;> omega

theorem c8cap_eq_zero {j : Nat} (h : c8cap j = 0) : j = 0 := by
  by_contra h0
  have := c8cap_pos (j := j) (by omega)
  omega

theorem c8cap_stay {j : Nat} (hj : j ≤ 8) (h : j + 1 < c8cap j) :
    c8cap (j + 1) = c8cap j := by
  have h0 : j ≠ 0 := by
    intro h0
    rw [h0] at h
    simp [c8cap] at h
  by_cases h7 : j ≤ 6
  · have e1 : c8cap j = 8 := by
      unfold c8cap
      rw [if_neg h0, if_pos (by omega)]
    have e2 : c8cap (j + 1) = 8 := by
      unfold c8cap
      rw [if_neg (by omega), if_pos (by omega)]
    rw [e1, e2]
  · have hj8 : j = 7 ∨ j = 8 := by omega
    rcases hj8 with rfl | rfl
    · have e1 : c8cap 7 = 8 := by decide
      omega
    · decide

theorem c8cap_grow_case {j : Nat} (hj : j ≤ 8) (hpos : 0 < c8cap j)
    (h : ¬ j + 1 < c8cap j) : j = 7 := by
  have h0 : j ≠ 0 := by
    intro h0
    rw [h0] at hpos
    simp [c8cap] at hpos
  by_cases h7 : j ≤ 7
  · have e1 : c8cap j = 8 := by
      unfold c8cap
      rw [if_neg h0, if_pos h7]
    omega
  · have hj8 : j = 8 := by omega
    subst hj8
    have e1 : c8cap 8 = 16 := by decide
    omega

theorem c8_grow {m : HashMap} {n j : Nat} {k : BucketKey}
    {S : Multiset BucketItem}
    (hn : bucketIndex m k = n) (hnlt : n < m.table.length)
    (hcount : (bucketAt m n).count = j)
    (hlen : (bucketAt m n).items.length = c8cap j)
    (hocc : occM (bucketAt m n).items = S)
    (hcard : Multiset.card S = j)
    (hj : j ≤ 8) :
    ∃ m1 b1, growNodeIfNeeded allocOk m k = (true, m1) ∧
      m1.table = m.table.set n b1 ∧
      b1.count = j ∧ b1.items.length = c8cap (j + 1) ∧ occM b1.items = S := by
  rcases hg : growNodeIfNeeded allocOk m k with ⟨ok, m1⟩
  have hok : ok = true := by
    have h2 := grow_allocOk_fst (m := m) (k := k)
    rw [hg] at h2
    simpa using h2
  subst hok
  obtain ⟨mA, hta, _, _, hcase⟩ := grow_true_spec hg
  rw [hn] at hcase
  rcases hcase with ⟨hlt, rfl⟩ | ⟨hnltc, hz, rfl⟩ | ⟨hnltc, hpos, rfl⟩
  · refine ⟨m1, bucketAt m n, rfl, ?_, hcount, ?_, hocc⟩
    · rw [hta]
      unfold bucketAt
      exact (set_getD_self hnlt emptyBucket).symm
    · rw [hlen, c8cap_stay hj (by omega)]
  · have hj0 : j = 0 := c8cap_eq_zero (by omega)
    subst hj0
    have hS : S = 0 := Multiset.card_eq_zero.mp hcard
    refine ⟨_, ⟨List.replicate 8 zeroItem, (bucketAt m n).count⟩, rfl, ?_, hcount,
      ?_, ?_⟩
    · simp [setBucket, hta]
    · simp
      decide
    · show occM (List.replicate 8 zeroItem) = S
      unfold occM
      rw [occ_replicate, hS]
      rfl
  · have hj7 : j = 7 := c8cap_grow_case hj (by omega) (by omega)
    subst hj7
    refine ⟨_, ⟨reloc (bucketAt m n).items
      (List.replicate ((bucketAt m n).items.length * 2) zeroItem),
      (bucketAt m n).count⟩, rfl, ?_, hcount, ?_, ?_⟩
    · simp [setBucket, hta]
    · show (reloc (bucketAt m n).items
        (List.replicate ((bucketAt m n).items.length * 2) zeroItem)).length
        = c8cap 8
      rw [reloc_length, List.length_replicate, hlen]
      decide
    · show occM (reloc (bucketAt m n).items
        (List.replicate ((bucketAt m n).items.length * 2) zeroItem)) = S
      have hoccl : (occ (bucketAt m n).items).length = 7 := by
        have h2 := occM_card (bucketAt m n).items
        rw [hocc, hcard] at h2
        omega
      have hro := reloc_occ (bucketAt m n).items
        (List.replicate ((bucketAt m n).items.length * 2) zeroItem)
        (by
          rw [occ_replicate, List.length_replicate, hoccl, hlen]
          decide)
      rw [hro, hocc]
      have : occM (List.replicate ((bucketAt m n).items.length * 2) zeroItem)
          = 0 := by
        simp [occM, occ_replicate]
      rw [this, zero_add]

theorem setK_eval_empty {o : AllocOracle} {m m1 : HashMap} {k : BucketKey}
    {d : Nat} {pos : Nat}
    (hg : growNodeIfNeeded o m k = (true, m1))
    (hfind : getItemPos m1 k true = some pos)
    (hz : ((bucketAt m1 (bucketIndex m1 k)).items.getD pos zeroItem).data = 0) :
    hashmapSetK o m k d = (true, setBucket m1 (bucketIndex m1 k)
      ⟨(bucketAt m1 (bucketIndex m1 k)).items.set pos ⟨k, d⟩,
       (bucketAt m1 (bucketIndex m1 k)).count + 1⟩, []) := by
  unfold hashmapSetK
  rw [hg]
  dsimp only
  rw [hfind]
  dsimp only
  rw [if_pos hz]

theorem c8_step {m : HashMap} {n j : Nat} {k : BucketKey} {d : Nat}
    {S : Multiset BucketItem}
    (hn : bucketIndex m k = n) (hnlt : n < m.table.length)
    (hcount : (bucketAt m n).count = j)
    (hlen : (bucketAt m n).items.length = c8cap j)
    (hocc : occM (bucketAt m n).items = S)
    (hcard : Multiset.card S = j)
    (hfresh : ∀ it ∈ S, it.key ≠ k)
    (hd : d ≠ 0) (hj : j ≤ 8) :
    ∃ b' : Bucket,
      (hashmapSetK allocOk m k d).1 = true ∧
      (hashmapSetK allocOk m k d).2.2 = [] ∧
      (hashmapSetK allocOk m k d).2.1.table = m.table.set n b' ∧
      b'.count = j + 1 ∧ b'.items.length = c8cap (j + 1) ∧
      occM b'.items = (⟨k, d⟩ : BucketItem) ::ₘ S := by
  obtain ⟨m1, b1, hg, ht1, hb1c, hb1l, hb1o⟩ :=
    c8_grow hn hnlt hcount hlen hocc hcard hj
  have hlen1 : m1.table.length = m.table.length := by
    rw [ht1, List.length_set]
  have hn1 : bucketIndex m1 k = n := by
    unfold bucketIndex
    rw [hlen1]
    exact hn
  have hbat : bucketAt m1 n = b1 := by
    unfold bucketAt
    rw [ht1]
    exact getD_set_self (by omega) ..
  have hocclt : (occ b1.items).length < b1.items.length := by
    have h2 := occM_card b1.items
    rw [hb1o, hcard] at h2
    rw [hb1l]
    have hgt := c8cap_gt hj
    omega
  obtain ⟨p, hp, hz⟩ := exists_empty_of_occ_lt hocclt
  have hlen1pos : 0 < b1.items.length := by omega
  obtain ⟨t, htt, hoff⟩ := @exists_offset b1.items.length (k.skey % b1.items.length) p hp
  obtain ⟨pos, hpf, hgood⟩ := probeFind_of_exists
    ⟨t, htt, by rw [hoff]; exact Or.inr ⟨rfl, hz⟩⟩
  obtain ⟨t0, ht0, hpos0, _, _⟩ := probeFind_sound hpf
  have hposlt : pos < b1.items.length := by
    rw [hpos0]
    exact Nat.mod_lt _ hlen1pos
  have hslot : (b1.items.getD pos zeroItem).data = 0 := by
    rcases hgood with ⟨hd0, hk0⟩ | ⟨_, hz0⟩
    · exfalso
      have hmem : b1.items.getD pos zeroItem ∈ occ b1.items :=
        occ_getD_mem hposlt hd0
      have hmemS : b1.items.getD pos zeroItem ∈ S := by
        rw [← hb1o]
        exact Multiset.mem_coe.mpr hmem
      exact hfresh _ hmemS hk0
    · exact hz0
  have hfind : getItemPos m1 k true = some pos := by
    simp only [getItemPos]
    rw [hn1, hbat, if_neg (by omega)]
    exact hpf
  have heval := setK_eval_empty (d := d) hg hfind (by rw [hn1, hbat]; exact hslot)
  rw [hn1, hbat] at heval
  refine ⟨⟨b1.items.set pos ⟨k, d⟩, b1.count + 1⟩, ?_, ?_, ?_, ?_, ?_, ?_⟩
  · rw [heval]
  · rw [heval]
  · rw [heval]
    show (setBucket m1 n _).table = _
    unfold setBucket
    rw [ht1, List.set_set]
  · dsimp only
    omega
  · dsimp only
    rw [List.length_set]
    exact hb1l
  · show occM (b1.items.set pos ⟨k, d⟩) = (⟨k, d⟩ : BucketItem) ::ₘ S
    rw [occM_set_of_empty hposlt hslot (by simpa using hd), hb1o]

theorem c8_chain {cap n : Nat} : ∀ (todo : List (BucketKey × Nat)) (m : HashMap)
    (S : Multiset BucketItem) (j : Nat),
    m.table.length = cap → n < cap →
    (∀ p ∈ todo, p.1.pkey % cap = n) →
    (bucketAt m n).count = j →
    (bucketAt m n).items.length = c8cap j →
    occM (bucketAt m n).items = S →
    Multiset.card S = j →
    (∀ p ∈ todo, ∀ it ∈ S, it.key ≠ p.1) →
    (todo.map Prod.fst).Nodup →
    (∀ p ∈ todo, p.2 ≠ 0) →
    j + todo.length ≤ 9 →
    (setList allocOk m todo).1 = true ∧
    (setList allocOk m todo).2.table.length = cap ∧
    (bucketAt (setList allocOk m todo).2 n).count = j + todo.length ∧
    (bucketAt (setList allocOk m todo).2 n).items.length
      = c8cap (j + todo.length) ∧
    occM (bucketAt (setList allocOk m todo).2 n).items
      = S + ((todo.map (fun p => (⟨p.1, p.2⟩ : BucketItem))
          : List BucketItem) : Multiset BucketItem) := by
  intro todo
  induction todo with
  | nil =>
    intro m S j hTlen hnlt hkeys hcount hlen hocc hcard hSfresh hnodup hdata hj
    refine ⟨rfl, hTlen, by simpa using hcount, by simpa using hlen, ?_⟩
    simpa using hocc
  | cons p rest ih =>
    intro m S j hTlen hnlt hkeys hcount hlen hocc hcard hSfresh hnodup hdata hj
    have hn : bucketIndex m p.1 = n := by
      unfold bucketIndex
      rw [hTlen]
      exact hkeys p (List.mem_cons_self ..)
    have hj' : j ≤ 8 := by
      simp only [List.length_cons] at hj
      omega
    obtain ⟨b', hs1, hs2, hs3, hb'c, hb'l, hb'o⟩ :=
      c8_step (d := p.2) (S := S) hn (by omega) hcount hlen hocc hcard
        (fun it hit => hSfresh p (List.mem_cons_self ..) it hit)
        (hdata p (List.mem_cons_self ..)) hj'
    have hstep : setList allocOk m (p :: rest)
        = setList allocOk (hashmapSetK allocOk m p.1 p.2).2.1 rest := by
      simp only [setList]
      rw [hs1]
      simp
    rw [hstep]
    have hT'len : (hashmapSetK allocOk m p.1 p.2).2.1.table.length = cap := by
      rw [hs3, List.length_set, hTlen]
    have hbat' : bucketAt (hashmapSetK allocOk m p.1 p.2).2.1 n = b' := by
      unfold bucketAt
      rw [hs3]
      exact getD_set_self (by omega) ..
    have hnodup0 : ((p :: rest).map Prod.fst).Nodup := hnodup
    simp only [List.map_cons, List.nodup_cons] at hnodup0
    have hfresh' : ∀ q ∈ rest, ∀ it ∈ (⟨p.1, p.2⟩ : BucketItem) ::ₘ S,
        it.key ≠ q.1 := by
      intro q hq it hit
      rcases Multiset.mem_cons.mp hit with rfl | hitS
      · show p.1 ≠ q.1
        intro he
        exact hnodup0.1 (he ▸ List.mem_map_of_mem Prod.fst hq)
      · exact hSfresh q (List.mem_cons_of_mem _ hq) it hitS
    have hlen9 : (j + 1) + rest.length ≤ 9 := by
      simp only [List.length_cons] at hj
      omega
    obtain ⟨hc1, hc2, hc3, hc4, hc5⟩ :=
      ih (hashmapSetK allocOk m p.1 p.2).2.1 ((⟨p.1, p.2⟩ : BucketItem) ::ₘ S)
        (j + 1) hT'len hnlt
        (fun q hq => hkeys q (List.mem_cons_of_mem _ hq))
        (by rw [hbat']; exact hb'c)
        (by rw [hbat']; exact hb'l)
        (by rw [hbat']; exact hb'o)
        (by rw [Multiset.card_cons, hcard])
        hfresh' hnodup0.2
        (fun q hq => hdata q (List.mem_cons_of_mem _ hq))
        hlen9
    refine ⟨hc1, hc2, ?_, ?_, ?_⟩
    · rw [hc3]
      simp only [List.length_cons]
      omega
    · rw [hc4]
      congr 1
      simp only [List.length_cons]
      omega
    · rw [hc5]
      simp only [List.map_cons]
      rw [← Multiset.cons_coe, Multiset.add_cons, Multiset.cons_add]

/-- C8: successfully inserting 9 pairwise-distinct two-part keys that all map
to the same primary bucket of a freshly created container (base size 8)
leaves that bucket with capacity exactly 16, and each of the 9 keys is
afterwards independently retrievable via get with the value set for it. -/
theorem spec_c8_growth_and_retrieval (cap : Nat) (hash : String → Nat)
    (hf : Bool) (n : Nat) (ps : List (BucketKey × Nat))
    (hcap : 0 < cap) (hlen : ps.length = 9)
    (hnodup : (ps.map Prod.fst).Nodup)
    (hdata : ∀ p ∈ ps, p.2 ≠ 0)
    (hsame : ∀ p ∈ ps, p.1.pkey % cap = n) :
    (setList allocOk (hashmap_create cap hash hf) ps).1 = true ∧
    (bucketAt (setList allocOk (hashmap_create cap hash hf) ps).2 n).capacity
      = 16 ∧
    ∀ p ∈ ps, hashmapGetK (setList allocOk (hashmap_create cap hash hf) ps).2 p.1
      = p.2 := by
  have h9 : ps ≠ [] := by
    intro he
    rw [he] at hlen
    simp at hlen
  obtain ⟨p0, hp0⟩ := List.exists_mem_of_ne_nil ps h9
  have hn : n < cap := by
    have h1 := hsame p0 hp0
    have h2 : p0.1.pkey % cap < cap := Nat.mod_lt _ hcap
    omega
  have hTlen : (hashmap_create cap hash hf).table.length = cap := by
    simp [hashmap_create]
  have hbat0 : bucketAt (hashmap_create cap hash hf) n = emptyBucket := by
    show (List.replicate cap emptyBucket).getD n emptyBucket = emptyBucket
    exact getD_replicate hn ..
  obtain ⟨hc1, hc2, hc3, hc4, hc5⟩ := c8_chain ps (hashmap_create cap hash hf) 0 0
    hTlen hn (fun p hp => hsame p hp)
    (by rw [hbat0]; rfl) (by rw [hbat0]; rfl) (by rw [hbat0]; rfl)
    (by simp)
    (by intro p hp it hit; simp at hit)
    hnodup hdata (by omega)
  refine ⟨hc1, ?_, ?_⟩
  · unfold Bucket.capacity
    rw [hc4, hlen]
    decide
  · intro p hp
    have hbi : bucketIndex (setList allocOk (hashmap_create cap hash hf) ps).2 p.1
        = n := by
      unfold bucketIndex
      rw [hc2]
      exact hsame p hp
    have hoccr : occM
        (bucketAt (setList allocOk (hashmap_create cap hash hf) ps).2 n).items
        = ((ps.map (fun q => (⟨q.1, q.2⟩ : BucketItem))
            : List BucketItem) : Multiset BucketItem) := by
      rw [hc5]
      simp
    apply getK_unique (D := p.2)
    · rw [hbi]
      have hmemM : (⟨p.1, p.2⟩ : BucketItem) ∈ occM
          (bucketAt (setList allocOk (hashmap_create cap hash hf) ps).2 n).items := by
        rw [hoccr]
        exact Multiset.mem_coe.mpr
          (List.mem_map_of_mem (fun q => (⟨q.1, q.2⟩ : BucketItem)) hp)
      exact Multiset.mem_coe.mp hmemM
    · rw [hbi]
      intro it hit hkey
      have hitM : it ∈ occM
          (bucketAt (setList allocOk (hashmap_create cap hash hf) ps).2 n).items :=
        Multiset.mem_coe.mpr hit
      rw [hoccr] at hitM
      obtain ⟨q, hq, rfl⟩ := List.mem_map.mp (Multiset.mem_coe.mp hitM)
      have hqp : q = p := List.inj_on_of_nodup_map hnodup hq hp hkey
      rw [hqp]

/-- C8 witness: nine concrete keys in one bucket of a capacity-1 container. -/
theorem spec_c8_growth_and_retrieval_witness :
    (setList allocOk (hashmap_create 1 hzero false) c8pairs).1 = true ∧
    (bucketAt (setList allocOk (hashmap_create 1 hzero false) c8pairs).2 0).capacity
      = 16 ∧
    hashmapGetK (setList allocOk (hashmap_create 1 hzero false) c8pairs).2 ⟨0, 0⟩
      = 100 := by
  have h := spec_c8_growth_and_retrieval 1 hzero false 0 c8pairs (by decide)
    (by decide) (by decide) (by decide) (by decide)
  exact ⟨h.1, h.2.1, by
    have := h.2.2 (⟨0, 0⟩, 100) (by decide)
    simpa using this⟩

/-- C7 counterexample: the claim "a successful set(K, D2) following a prior
successful set(K, D1) invokes the destroy callback on D1 exactly once" fails
on a reachable container.  A delete leaves an empty slot at K's probe start
while an older entry for K (value 10) survives at a later array index; the
first set of the claim (D1 = 11) then lands in the hole, so K occupies two
slots; the second set (D2 = 12) triggers a regrow that re-places the old
entry first, and the overwrite destroys the stale value 10 — D1 = 11 is
destroyed zero times (and remains stored, unreachable by get). -/
theorem spec_c7_counterexample :
    c7m1.hasFree = true ∧
    Reachable c7m1 ∧
    (hashmap_set allocOk c7m1 "k" 11).1 = true ∧
    (hashmap_set allocOk c7m2 "k" 12).1 = true ∧
    (hashmap_set allocOk c7m2 "k" 12).2.2 = [10] ∧
    ((hashmap_set allocOk c7m2 "k" 12).2.2).count 11 = 0 ∧
    hashmap_get (hashmap_set allocOk c7m2 "k" 12).2.1 "k" = 12 := by
  refine ⟨rfl, ?_, by decide, by decide, by decide, by decide, by decide⟩
  have h0 : Reachable (hashmap_create 1 c7hash true) :=
    Reachable.create 1 c7hash true (by decide)
  have h1 := Reachable.set _ allocOk
    (computeKey (hashmap_create 1 c7hash true) "v") 20 h0
  have h2 := Reachable.set _ allocOk
    (computeKey (hashmap_set allocOk (hashmap_create 1 c7hash true) "v" 20).2.1 "k")
    10 h1
  have h3 := Reachable.set _ allocOk
    (computeKey (hashmap_set allocOk
      (hashmap_set allocOk (hashmap_create 1 c7hash true) "v" 20).2.1 "k" 10).2.1
      "f1") 31 h2
  have h4 := Reachable.set _ allocOk
    (computeKey (hashmap_set allocOk (hashmap_set allocOk
      (hashmap_set allocOk (hashmap_create 1 c7hash true) "v" 20).2.1 "k" 10).2.1
      "f1" 31).2.1 "f2") 32 h3
  have h5 := Reachable.set _ allocOk
    (computeKey (hashmap_set allocOk (hashmap_set allocOk (hashmap_set allocOk
      (hashmap_set allocOk (hashmap_create 1 c7hash true) "v" 20).2.1 "k" 10).2.1
      "f1" 31).2.1 "f2" 32).2.1 "f3") 33 h4
  have h6 := Reachable.set _ allocOk
    (computeKey (hashmap_set allocOk (hashmap_set allocOk (hashmap_set allocOk
      (hashmap_set allocOk
      (hashmap_set allocOk (hashmap_create 1 c7hash true) "v" 20).2.1 "k" 10).2.1
      "f1" 31).2.1 "f2" 32).2.1 "f3" 33).2.1 "f4") 34 h5
  have h7 : Reachable c7m0 := h6
  have hdel : hashmapDeleteK c7m0 (computeKey c7m0 "v") false
      = some (true, c7m1, none) := rfl
  exact Reachable.delete c7m0 (computeKey c7m0 "v") false (true, c7m1, none)
    h7 hdel

/-! ### The regrow loop leaves no hole before an occupied slot -/

theorem nohole_replicate (nn : Nat) :
    NoHoleBefore (List.replicate nn zeroItem) := by
  intro p hp hocc
  exfalso
  rw [List.length_replicate] at hp
  rw [getD_replicate hp] at hocc
  exact hocc rfl

theorem relocOne_nohole {arr : List BucketItem} {it : BucketItem}
    (h : NoHoleBefore arr) : NoHoleBefore (relocOne arr it) := by
  unfold relocOne
  rcases hfe : firstEmpty arr (it.key.skey % arr.length) with _ | pf
  · exact h
  · obtain ⟨s, hs, hpf, hpfz, hmin⟩ := firstEmpty_sound hfe
    have hlen : 0 < arr.length := by omega
    have hpflt : pf < arr.length := by
      rw [hpf]
      exact Nat.mod_lt _ hlen
    intro p hp hocc t ht hoff j hj
    rw [List.length_set] at hp ht hoff ⊢
    by_cases hppf : p = pf
    · subst hppf
      have hgd : (arr.set p it).getD p zeroItem = it := getD_set_self hpflt ..
      rw [hgd] at hocc hoff ⊢
      have hts : t = s := by
        apply probe_inj ht hs
        rw [hoff, ← hpf]
      subst hts
      have hocc0 := hmin j hj
      by_cases hq : (it.key.skey % arr.length + j) % arr.length = p
      · rw [hq, hgd]
        exact hocc
      · rw [getD_set_ne arr (fun he => hq he.symm)]
        exact hocc0
    · have hgd : (arr.set pf it).getD p zeroItem = arr.getD p zeroItem :=
        getD_set_ne arr (fun he => hppf he.symm) ..
      rw [hgd] at hocc hoff ⊢
      have hocc0 := h p hp hocc t ht hoff j hj
      by_cases hq : ((arr.getD p zeroItem).key.skey % arr.length + j)
          % arr.length = pf
      · rw [hq, getD_set_self hpflt]
        rw [hq] at hocc0
        exact absurd hpfz hocc0
      · rw [getD_set_ne arr (fun he => hq he.symm)]
        exact hocc0

theorem reloc_nohole (old : List BucketItem) : ∀ {fresh : List BucketItem},
    NoHoleBefore fresh → NoHoleBefore (reloc old fresh) := by
  induction old with
  | nil => intro fresh h; exact h
  | cons it rest ih =>
    intro fresh h
    exact ih (relocOne_nohole h)

/-! ### Counting the occupied slots that hold a given key -/

theorem countKeyOcc_countP {l : List BucketItem} {k : BucketKey} :
    ((occ l).filter (fun it => decide (it.key = k))).length
      = l.countP (fun it => decide (it.key = k) && (it.data != 0)) := by
  unfold occ
  rw [List.filter_filter, List.countP_eq_length_filter]

theorem countP_transfer {l1 l2 : List BucketItem} (h : occM l1 = occM l2)
    (pb : BucketItem → Bool) :
    l1.countP (fun it => pb it && (it.data != 0))
      = l2.countP (fun it => pb it && (it.data != 0)) := by
  have hperm : (occ l1).Perm (occ l2) := Multiset.coe_eq_coe.mp h
  have h1 := hperm.countP_eq pb
  unfold occ at h1
  rw [List.countP_filter, List.countP_filter] at h1
  exact h1

theorem table_pos_of_bucket {m : HashMap} {n : Nat}
    (h : 0 < (bucketAt m n).items.length) : 0 < m.table.length := by
  by_contra hc
  push_neg at hc
  have h0 : m.table = [] := List.length_eq_zero.mp (by omega)
  have he : bucketAt m n = emptyBucket := by simp [bucketAt, h0]
  rw [he] at h
  simp [emptyBucket] at h

theorem probeFind_update_any {arr : List BucketItem} {key : BucketKey}
    {idx t pos : Nat} {x : BucketItem} (eok : Bool)
    (ht : t < arr.length) (hp : pos = (idx + t) % arr.length)
    (hmin : ∀ j, j < t → ¬ goodSlot arr key true ((idx + j) % arr.length))
    (hx : x.data ≠ 0) (hk : x.key = key) :
    probeFind (arr.set pos x) key eok idx = some pos := by
  have hlen : (arr.set pos x).length = arr.length := List.length_set ..
  have hposlt : pos < arr.length := by
    rw [hp]
    exact Nat.mod_lt _ (by omega)
  have hgd : (arr.set pos x).getD pos zeroItem = x := getD_set_self hposlt ..
  have hgood : goodSlot (arr.set pos x) key eok pos := by
    unfold goodSlot
    rw [hgd]
    exact Or.inl ⟨hx, hk⟩
  have hmin' : ∀ j, j < t →
      ¬ goodSlot (arr.set pos x) key eok ((idx + j) % (arr.set pos x).length) := by
    intro j hj hgj
    have hjlen : j < arr.length := by omega
    have hne : pos ≠ (idx + j) % arr.length := by
      intro he
      have := probe_inj hjlen ht (he ▸ hp.symm).symm
      omega
    rw [hlen] at hgj
    have hgd2 : (arr.set pos x).getD ((idx + j) % arr.length) zeroItem
        = arr.getD ((idx + j) % arr.length) zeroItem := getD_set_ne arr hne ..
    have hmj := hmin j hj
    unfold goodSlot at hgj hmj
    rw [hgd2] at hgj
    rcases hgj with hcase | hcase
    · exact hmj (Or.inl hcase)
    · exact hmj (Or.inr ⟨rfl, hcase.2⟩)
  have := @probeFind_complete (arr.set pos x) key eok idx t
    (by omega : t < (arr.set pos x).length) ?_ hmin'
  · rw [this]
    congr 1
    rw [hlen, hp]
  · rw [hlen, ← hp]
    exact hgood

theorem probeFind_reloc_unique {arr2 : List BucketItem} {k : BucketKey}
    {d1 : Nat} {p2 : Nat}
    (hnh : NoHoleBefore arr2)
    (hcnt : arr2.countP (fun it => decide (it.key = k) && (it.data != 0)) = 1)
    (hp2 : p2 < arr2.length) (hslot : arr2.getD p2 zeroItem = ⟨k, d1⟩)
    (hd1 : d1 ≠ 0) :
    probeFind arr2 k true (k.skey % arr2.length) = some p2 := by
  have hlen : 0 < arr2.length := by omega
  obtain ⟨t2, ht2, hoff⟩ := @exists_offset arr2.length (k.skey % arr2.length) p2 hp2
  have hoffk : ((arr2.getD p2 zeroItem).key.skey % arr2.length + t2) % arr2.length
      = p2 := by
    rw [hslot]
    exact hoff
  have hgood : goodSlot arr2 k true ((k.skey % arr2.length + t2) % arr2.length) := by
    unfold goodSlot
    rw [hoff, hslot]
    exact Or.inl ⟨hd1, rfl⟩
  have hmin : ∀ j, j < t2 →
      ¬ goodSlot arr2 k true ((k.skey % arr2.length + j) % arr2.length) := by
    intro j hj hg
    have hjlen : j < arr2.length := by omega
    have hqlt : (k.skey % arr2.length + j) % arr2.length < arr2.length :=
      Nat.mod_lt _ hlen
    have hqne : (k.skey % arr2.length + j) % arr2.length ≠ p2 := by
      intro he
      have hje : j = t2 := probe_inj hjlen ht2 (he.trans hoff.symm)
      omega
    have hocc : (arr2.getD ((k.skey % arr2.length + j) % arr2.length)
        zeroItem).data ≠ 0 := by
      have h0 := hnh p2 hp2 (by rw [hslot]; exact hd1) t2 ht2 hoffk j hj
      rw [hslot] at h0
      exact h0
    rcases hg with ⟨hd0, hk0⟩ | ⟨_, hz⟩
    · have hpb1 : (fun it => decide (it.key = k) && (it.data != 0))
          (arr2.getD ((k.skey % arr2.length + j) % arr2.length) zeroItem)
          = true := by
        simp only [Bool.and_eq_true, decide_eq_true_eq, bne_iff_ne]
        exact ⟨hk0, hd0⟩
      have hpb2 : (fun it => decide (it.key = k) && (it.data != 0))
          (arr2.getD p2 zeroItem) = true := by
        rw [hslot]
        simp only [Bool.and_eq_true, decide_eq_true_eq, bne_iff_ne]
        exact ⟨trivial, hd1⟩
      have heq := countP_le_one_unique (d := zeroItem) hcnt.le _ hqlt _ hp2
        hpb1 hpb2
      exact hqne heq
    · exact hocc hz
  have hc := @probeFind_complete arr2 k true (k.skey % arr2.length) t2 ht2
    hgood hmin
  rw [hc, hoff]

theorem setK_overwrite_core {o1 o2 : AllocOracle} {m : HashMap} {k : BucketKey}
    {d1 d2 : Nat} {m1 m2 : HashMap} {log1 log2 : List Nat}
    (hfree : m.hasFree = true) (hd1 : d1 ≠ 0)
    (h1 : hashmapSetK o1 m k d1 = (true, m1, log1))
    (huniq : countKeyOcc m1 k = 1)
    (h2 : hashmapSetK o2 m1 k d2 = (true, m2, log2)) :
    log2 = [d1] := by
  obtain ⟨mg, pos1, hg1, hfind1, hbr1⟩ := set_true_spec h1
  obtain ⟨hlen0g, hpf1⟩ := getItemPos_some hfind1
  obtain ⟨t1, ht1, hp1, hgood1, hmin1⟩ := probeFind_sound hpf1
  have hm1 : ∃ c1, m1 = setBucket mg (bucketIndex mg k)
      ⟨(bucketAt mg (bucketIndex mg k)).items.set pos1 ⟨k, d1⟩, c1⟩ := by
    rcases hbr1 with ⟨_, hm, _⟩ | ⟨_, hm, _⟩ <;> exact ⟨_, hm⟩
  obtain ⟨c1, hm1eq⟩ := hm1
  have hlenposg : 0 < (bucketAt mg (bucketIndex mg k)).items.length :=
    Nat.pos_of_ne_zero hlen0g
  have htlg : 0 < mg.table.length := table_pos_of_bucket hlenposg
  have hng : bucketIndex mg k < mg.table.length := Nat.mod_lt _ htlg
  have hbI1 : bucketIndex m1 k = bucketIndex mg k := by
    unfold bucketIndex
    rw [hm1eq, setBucket_table_length]
  have hbA1 : bucketAt m1 (bucketIndex m1 k)
      = ⟨(bucketAt mg (bucketIndex mg k)).items.set pos1 ⟨k, d1⟩, c1⟩ := by
    rw [hbI1, hm1eq]
    exact bucketAt_setBucket_self hng _
  have hpos1lt : pos1 < (bucketAt mg (bucketIndex mg k)).items.length := by
    rw [hp1]
    exact Nat.mod_lt _ hlenposg
  have hfree1 : m1.hasFree = true := by
    have he : (hashmapSetK o1 m k d1).2.1 = m1 := by rw [h1]
    have hff := (setK_fields o1 m k d1).2.1
    rw [he] at hff
    rw [hff, hfree]
  obtain ⟨mg2, pos2, hg2, hfind2, hbr2⟩ := set_true_spec h2
  obtain ⟨hlen02, hpf2⟩ := getItemPos_some hfind2
  have hbI2 : bucketIndex mg2 k = bucketIndex m1 k := by
    unfold bucketIndex
    have hl2 := (grow_snd_fields o2 m1 k).2.2
    rw [hg2] at hl2
    simp only at hl2
    rw [hl2]
  have hfree2 : mg2.hasFree = true := by
    have hf2 := (grow_snd_fields o2 m1 k).2.1
    rw [hg2] at hf2
    simp only at hf2
    rw [hf2, hfree1]
  suffices hslot2 : (bucketAt mg2 (bucketIndex mg2 k)).items.getD pos2 zeroItem
      = ⟨k, d1⟩ by
    rcases hbr2 with ⟨hz2, _, _⟩ | ⟨hnz2, _, hlog2⟩
    · rw [hslot2] at hz2
      exact absurd hz2 hd1
    · rw [hslot2] at hlog2
      rw [hlog2, if_pos hfree2]
  obtain ⟨mA2, hta2, _, _, hcase2⟩ := grow_true_spec hg2
  rcases hcase2 with ⟨hlt2, rfl⟩ | ⟨hx2, hz2, hmg2⟩ | ⟨hnlt2, hposl2, hmg2⟩
  · have hbAeq : bucketAt mg2 (bucketIndex mg2 k)
        = bucketAt m1 (bucketIndex m1 k) := by
      rw [hbI2, bucketAt_congr_table hta2]
    rw [hbAeq, hbA1] at hpf2 ⊢
    dsimp only at hpf2 ⊢
    rw [List.length_set] at hpf2
    have hupd := probeFind_update_any true ht1 hp1 hmin1
      (show (⟨k, d1⟩ : BucketItem).data ≠ 0 from hd1) rfl
    rw [hupd] at hpf2
    have hpp : pos1 = pos2 := Option.some_inj.mp hpf2
    rw [← hpp]
    exact getD_set_self hpos1lt ..
  · exfalso
    rw [hbA1] at hz2
    dsimp only at hz2
    rw [List.length_set] at hz2
    omega
  · rw [hbA1] at hmg2
    dsimp only at hmg2
    rw [List.length_set] at hmg2
    have htl1 : 0 < m1.table.length := by
      rw [hm1eq, setBucket_table_length]
      omega
    have hn1ltA : bucketIndex m1 k < mA2.table.length := by
      have hAl : mA2.table.length = m1.table.length := by rw [hta2]
      rw [hAl]
      exact Nat.mod_lt _ htl1
    have hbA2 : bucketAt mg2 (bucketIndex mg2 k)
        = ⟨reloc ((bucketAt mg (bucketIndex mg k)).items.set pos1 ⟨k, d1⟩)
            (List.replicate ((bucketAt mg (bucketIndex mg k)).items.length * 2)
              zeroItem), c1⟩ := by
      rw [hbI2, hmg2]
      exact bucketAt_setBucket_self hn1ltA _
    rw [hbA2] at hpf2 ⊢
    dsimp only at hpf2 ⊢
    have hpos1lt' : pos1 < ((bucketAt mg (bucketIndex mg k)).items.set pos1
        ⟨k, d1⟩).length := by
      rw [List.length_set]
      exact hpos1lt
    have hitems1pos : ((bucketAt mg (bucketIndex mg k)).items.set pos1
        ⟨k, d1⟩).getD pos1 zeroItem = ⟨k, d1⟩ := getD_set_self hpos1lt ..
    have hocc2 : occM (reloc ((bucketAt mg (bucketIndex mg k)).items.set pos1 ⟨k, d1⟩)
        (List.replicate ((bucketAt mg (bucketIndex mg k)).items.length * 2) zeroItem))
        = occM ((bucketAt mg (bucketIndex mg k)).items.set pos1 ⟨k, d1⟩) := by
      have hcond : (occ ((bucketAt mg (bucketIndex mg k)).items.set pos1 ⟨k, d1⟩)).length
          + (occ (List.replicate ((bucketAt mg (bucketIndex mg k)).items.length * 2)
              zeroItem)).length
          < (List.replicate ((bucketAt mg (bucketIndex mg k)).items.length * 2)
              zeroItem).length := by
        rw [occ_replicate, List.length_replicate]
        have hle := occ_length_le ((bucketAt mg (bucketIndex mg k)).items.set pos1 ⟨k, d1⟩)
        rw [List.length_set] at hle
        simp only [List.length_nil]
        omega
      have hro := reloc_occ _ _ hcond
      rw [hro]
      have hrz : occM (List.replicate
          ((bucketAt mg (bucketIndex mg k)).items.length * 2) zeroItem) = 0 := by
        unfold occM
        rw [occ_replicate]
        rfl
      rw [hrz, zero_add]
    have hnh : NoHoleBefore (reloc ((bucketAt mg (bucketIndex mg k)).items.set pos1 ⟨k, d1⟩)
        (List.replicate ((bucketAt mg (bucketIndex mg k)).items.length * 2) zeroItem)) :=
      reloc_nohole _ (nohole_replicate _)
    have huniq' : ((bucketAt mg (bucketIndex mg k)).items.set pos1 ⟨k, d1⟩).countP
        (fun it => decide (it.key = k) && (it.data != 0)) = 1 := by
      unfold countKeyOcc at huniq
      rw [hbA1] at huniq
      dsimp only at huniq
      rw [countKeyOcc_countP] at huniq
      exact huniq
    have hcnt2 : (reloc ((bucketAt mg (bucketIndex mg k)).items.set pos1 ⟨k, d1⟩)
        (List.replicate ((bucketAt mg (bucketIndex mg k)).items.length * 2)
          zeroItem)).countP
        (fun it => decide (it.key = k) && (it.data != 0)) = 1 := by
      rw [countP_transfer hocc2 (fun it => decide (it.key = k))]
      exact huniq'
    have hmemocc : (⟨k, d1⟩ : BucketItem) ∈ occ ((bucketAt mg (bucketIndex mg k)).items.set
        pos1 ⟨k, d1⟩) := by
      have := occ_getD_mem hpos1lt' (by rw [hitems1pos]; exact hd1)
      rw [hitems1pos] at this
      exact this
    have hmem2 : (⟨k, d1⟩ : BucketItem) ∈ occ (reloc
        ((bucketAt mg (bucketIndex mg k)).items.set pos1 ⟨k, d1⟩)
        (List.replicate ((bucketAt mg (bucketIndex mg k)).items.length * 2)
          zeroItem)) := by
      have hM : (⟨k, d1⟩ : BucketItem) ∈ occM (reloc
          ((bucketAt mg (bucketIndex mg k)).items.set pos1 ⟨k, d1⟩)
          (List.replicate ((bucketAt mg (bucketIndex mg k)).items.length * 2)
            zeroItem)) := by
        rw [hocc2]
        exact Multiset.mem_coe.mpr hmemocc
      exact Multiset.mem_coe.mp hM
    obtain ⟨hmem2', hd2'⟩ := mem_occ_iff.mp hmem2
    obtain ⟨p2, hp2, hpe2⟩ := List.getElem_of_mem hmem2'
    have hgd2 : (reloc ((bucketAt mg (bucketIndex mg k)).items.set pos1 ⟨k, d1⟩)
        (List.replicate ((bucketAt mg (bucketIndex mg k)).items.length * 2)
          zeroItem)).getD p2 zeroItem = ⟨k, d1⟩ := by
      rw [List.getD_eq_getElem _ _ hp2, hpe2]
    have hfound := probeFind_reloc_unique hnh hcnt2 hp2 hgd2 hd1
    rw [hfound] at hpf2
    have hpp : p2 = pos2 := Option.some_inj.mp hpf2
    rw [← hpp]
    exact hgd2

/-- C7 (amended): for every non-empty string key K with a destroy callback
configured, if after the first successful `set(K, D1)` the key K occupies
exactly one occupied slot of its bucket (duplicates can exist only when a
prior deletion left an empty slot before an older entry for K — the
counterexample scenario), then a successful `set(K, D2)` invokes the destroy
callback on D1 exactly once (the callback log of the second set is `[D1]`),
never on a distinct newly inserted D2, and `get(K)` afterwards returns D2. -/
theorem spec_c7_overwrite_amended {o1 o2 : AllocOracle} {m : HashMap}
    {key : String} {d1 d2 : Nat} {m1 m2 : HashMap} {log1 log2 : List Nat}
    (hfree : m.hasFree = true) (_hkey : key ≠ "") (hd1 : d1 ≠ 0) (hd2 : d2 ≠ 0)
    (h1 : hashmap_set o1 m key d1 = (true, m1, log1))
    (huniq : countKeyOcc m1 (computeKey m1 key) = 1)
    (h2 : hashmap_set o2 m1 key d2 = (true, m2, log2)) :
    log2 = [d1] ∧ (d2 ≠ d1 → d2 ∉ log2) ∧ hashmap_get m2 key = d2 := by
  unfold hashmap_set at h1 h2
  have hm1e : (hashmapSetK o1 m (computeKey m key) d1).2.1 = m1 := by rw [h1]
  have hhash1 : m1.hash_function = m.hash_function := by
    have hh := (setK_fields o1 m (computeKey m key) d1).1
    rw [hm1e] at hh
    exact hh
  have hck1 : computeKey m1 key = computeKey m key := computeKey_congr hhash1 key
  rw [hck1] at h2 huniq
  have hcore := setK_overwrite_core hfree hd1 h1 huniq h2
  have hm2e : (hashmapSetK o2 m1 (computeKey m key) d2).2.1 = m2 := by rw [h2]
  have hhash2 : m2.hash_function = m1.hash_function := by
    have hh := (setK_fields o2 m1 (computeKey m key) d2).1
    rw [hm2e] at hh
    exact hh
  refine ⟨hcore, ?_, ?_⟩
  · intro hne hmem
    rw [hcore] at hmem
    simp at hmem
    exact hne hmem
  · unfold hashmap_get
    rw [computeKey_congr hhash2, hck1]
    exact setK_get h2 hd2

/-- C7 (amended) witness: overwrite on a fresh container: destroy log `[1]`,
then get returns 2. -/
theorem spec_c7_overwrite_amended_witness :
    (hashmap_create 1 hzero true).hasFree = true ∧
    countKeyOcc (hashmap_set allocOk (hashmap_create 1 hzero true) "a" 1).2.1
      (computeKey (hashmap_set allocOk (hashmap_create 1 hzero true) "a" 1).2.1
        "a") = 1 ∧
    (hashmap_set allocOk
      (hashmap_set allocOk (hashmap_create 1 hzero true) "a" 1).2.1 "a" 2).2.2
      = [1] ∧
    hashmap_get (hashmap_set allocOk
      (hashmap_set allocOk (hashmap_create 1 hzero true) "a" 1).2.1 "a" 2).2.1
      "a" = 2 := by
  have h1 : hashmap_set allocOk (hashmap_create 1 hzero true) "a" 1
      = (true, (hashmap_set allocOk (hashmap_create 1 hzero true) "a" 1).2.1,
          (hashmap_set allocOk (hashmap_create 1 hzero true) "a" 1).2.2) := rfl
  have h2 : hashmap_set allocOk
      (hashmap_set allocOk (hashmap_create 1 hzero true) "a" 1).2.1 "a" 2
      = (true, (hashmap_set allocOk
          (hashmap_set allocOk (hashmap_create 1 hzero true) "a" 1).2.1 "a" 2).2.1,
          (hashmap_set allocOk
          (hashmap_set allocOk (hashmap_create 1 hzero true) "a" 1).2.1 "a" 2).2.2)
      := rfl
  have h := @spec_c7_overwrite_amended allocOk allocOk
    (hashmap_create 1 hzero true) "a" 1 2
    (hashmap_set allocOk (hashmap_create 1 hzero true) "a" 1).2.1
    (hashmap_set allocOk
      (hashmap_set allocOk (hashmap_create 1 hzero true) "a" 1).2.1 "a" 2).2.1
    (hashmap_set allocOk (hashmap_create 1 hzero true) "a" 1).2.2
    (hashmap_set allocOk
      (hashmap_set allocOk (hashmap_create 1 hzero true) "a" 1).2.1 "a" 2).2.2
    rfl (by decide) (by decide) (by decide) h1 (by decide) h2
  exact ⟨rfl, by decide, h.1, h.2.2⟩
